import Mathlib

/-! PixelArt editor (`src/app.js`): shallow embedding and verified properties

The editor keeps one global `state` object.  It is embedded as the structure
`State`, and every function of `app.js` that reads or writes it becomes a
function taking the state and returning the new one.

Modelling conventions:

* a pixel is `null` (`TRANSPARENT`) or a colour string: `Color := Option String`;
* `state.pixels` is a JavaScript array of rows: `List (List Color)`, row `y`,
  column `x` is `pixels[y][x]`;
* coordinates are JavaScript integers (`x - 1` may be negative): `Int`;
* an array access outside the real extents of the arrays (where the engine
  throws a `TypeError`, reads `undefined` or creates a sparse array) is outside
  the list model: the embedded function returns `none` there;
* the `while` loops take a fuel argument and return `none` when it runs out;
* rendering (`renderCanvas`, `renderPalette`, `refreshHistoryButtons`) only
  reads the state and writes to the DOM; it is not modelled, except for whether
  `renderCanvas` throws inside the `try` block of the project load
  (`renderCanvasThrows`);
* the history stacks are lists in array order: index 0 (the oldest entry) is
  the head, `push` appends at the end, `pop` removes the last element and
  `shift` removes the head.
-/

namespace PixelArt

/-! ## Data model -/

/-- A pixel value: `none` is `null`, `some c` the colour string `c`. -/
abbrev Color := Option String

/-- The pixel buffer `state.pixels`: a list of rows. -/
abbrev Pixels := List (List Color)

/-- A cell `{ x, y }`. -/
structure Cell where
  x : Int
  y : Int
  deriving DecidableEq, Repr

/-- The `activeTool` identifiers. -/
inductive Tool where
  | brush
  | eraser
  | bucket
  | line
  | rectOutline
  | rectFill
  deriving DecidableEq, Repr

/-- The constant `TRANSPARENT = null`. -/
def TRANSPARENT : Color := none

/-- The constant `HISTORY_LIMIT = 30`. -/
def HISTORY_LIMIT : Nat := 30

/-- The global `state` object. -/
structure State where
  gridSize : Nat
  cellSize : Nat
  activeTool : Tool
  activeColor : String
  isDrawing : Bool
  lineStart : Option Cell
  rectStart : Option Cell
  pixels : Pixels
  palette : List String
  undoStack : List Pixels
  redoStack : List Pixels
  deriving DecidableEq, Repr

/-- The function `createPixelGrid(size)`: `size` rows of `size` transparent cells. -/
def createPixelGrid (size : Nat) : Pixels :=
  List.replicate size (List.replicate size TRANSPARENT)

/-- The function `clonePixels(pixels)`: `pixels.map((row) => [...row])`. -/
def clonePixels (pixels : Pixels) : Pixels :=
  pixels.map (fun row => row)

/-- The state literal of `app.js` after the first statement of `initialize()`,
`state.pixels = createPixelGrid(state.gridSize)`. -/
def initialState : State where
  gridSize := 32
  cellSize := 14
  activeTool := Tool.brush
  activeColor := "#ff5722"
  isDrawing := false
  lineStart := none
  rectStart := none
  pixels := createPixelGrid 32
  palette := ["#000000", "#ffffff", "#ef4444", "#f59e0b", "#facc15", "#22c55e", "#10b981",
    "#06b6d4", "#3b82f6", "#6366f1", "#8b5cf6", "#a855f7", "#ec4899", "#f43f5e", "#7c2d12",
    "#4b5563"]
  undoStack := []
  redoStack := []

/-- The grid invariant of the data model: `pixels` has `gridSize` rows and every
row has `gridSize` entries. -/
def WellFormed (s : State) : Prop :=
  s.pixels.length = s.gridSize ∧ ∀ row ∈ s.pixels, row.length = s.gridSize

instance (s : State) : Decidable (WellFormed s) := by
  unfold WellFormed
  infer_instance

/-- A pixel buffer of `n` rows of `n` entries. -/
def IsGrid (pixels : Pixels) (n : Nat) : Prop :=
  pixels.length = n ∧ ∀ row ∈ pixels, row.length = n

instance (pixels : Pixels) (n : Nat) : Decidable (IsGrid pixels n) := by
  unfold IsGrid
  infer_instance

/-- A coordinate is valid iff `0 <= x < gridSize` and `0 <= y < gridSize`. -/
def InBounds (s : State) (x y : Int) : Prop :=
  0 ≤ x ∧ x < s.gridSize ∧ 0 ≤ y ∧ y < s.gridSize

instance (s : State) (x y : Int) : Decidable (InBounds s x y) := by
  unfold InBounds
  infer_instance

/-! ## Array access -/

/-- The read `pixels[y][x]`; `none` when the row or the column does not exist. -/
def readPixel (pixels : Pixels) (x y : Int) : Option Color :=
  if x < 0 ∨ y < 0 then none
  else
    match pixels[y.toNat]? with
    | none => none
    | some row => row[x.toNat]?

/-- The assignment `pixels[y][x] = color`; `none` when the row or the column does
not exist. -/
def writePixel (pixels : Pixels) (x y : Int) (color : Color) : Option Pixels :=
  if x < 0 ∨ y < 0 then none
  else
    match pixels[y.toNat]? with
    | none => none
    | some row =>
      if x.toNat < row.length then some (pixels.set y.toNat (row.set x.toNat color))
      else none

/-- The function `getCellFromPointer(event)`, from the two `Math.floor` results on. -/
def getCellFromPointer (s : State) (x y : Int) : Option Cell :=
  if x < 0 ∨ y < 0 ∨ x ≥ s.gridSize ∨ y ≥ s.gridSize then none
  else some ⟨x, y⟩

/-- The function `setPixel(x, y, color)`. -/
def setPixel (s : State) (x y : Int) (color : Color) : Option State :=
  if x < 0 ∨ y < 0 ∨ x ≥ s.gridSize ∨ y ≥ s.gridSize then some s
  else
    match writePixel s.pixels x y color with
    | none => none
    | some p => some { s with pixels := p }

/-- The function `applyBrush(cell)`. -/
def applyBrush (s : State) (cell : Cell) : Option State :=
  setPixel s cell.x cell.y (some s.activeColor)

/-- The function `applyEraser(cell)`. -/
def applyEraser (s : State) (cell : Cell) : Option State :=
  setPixel s cell.x cell.y TRANSPARENT

/-! ## Flood fill -/

/-- The `while (stack.length)` loop of `floodFill`.  The work list is kept with
its top (the end of the JavaScript array, where `push` and `pop` work) at the
head, so the four pushes `(x+1,y)`, `(x-1,y)`, `(x,y+1)`, `(x,y-1)` appear in
reverse order. -/
def floodFillLoop : Nat → State → Color → Color → List Cell → Option State
  | _, s, _, _, [] => some s
  | 0, _, _, _, _ :: _ => none
  | fuel + 1, s, targetColor, replacementColor, c :: stack =>
    if c.x < 0 ∨ c.y < 0 ∨ c.x ≥ s.gridSize ∨ c.y ≥ s.gridSize then
      floodFillLoop fuel s targetColor replacementColor stack
    else
      match readPixel s.pixels c.x c.y with
      | none => none
      | some v =>
        if v ≠ targetColor then floodFillLoop fuel s targetColor replacementColor stack
        else
          match writePixel s.pixels c.x c.y replacementColor with
          | none => none
          | some p =>
            floodFillLoop fuel { s with pixels := p } targetColor replacementColor
              (⟨c.x, c.y - 1⟩ :: ⟨c.x, c.y + 1⟩ :: ⟨c.x - 1, c.y⟩ :: ⟨c.x + 1, c.y⟩ :: stack)

/-- The function `floodFill(startX, startY, replacementColor)`.  The loop gets
`4 * gridSize * gridSize + 1` iterations of fuel. -/
def floodFill (s : State) (startX startY : Int) (replacementColor : Color) : Option State :=
  match readPixel s.pixels startX startY with
  | none => none
  | some targetColor =>
    if targetColor = replacementColor then some s
    else
      floodFillLoop (4 * s.gridSize * s.gridSize + 1) s targetColor replacementColor
        [⟨startX, startY⟩]

/-! ## Line -/

/-- One pass through the body of the `while (true)` loop of `plotLine` after the
`break` test: the new `(x0, y0, err)`. -/
def plotLineStep (dx sx dy sy : Int) (x0 y0 err : Int) : Int × Int × Int :=
  let e2 := 2 * err
  let err1 := if e2 ≥ dy then err + dy else err
  let x0' := if e2 ≥ dy then x0 + sx else x0
  let err2 := if e2 ≤ dx then err1 + dx else err1
  let y0' := if e2 ≤ dx then y0 + sy else y0
  (x0', y0', err2)

/-- The `while (true)` loop of `plotLine`. -/
def plotLineLoop : Nat → State → Int → Int → Int → Int → Int → Int → Int → Int → Int → Color →
    Option State
  | 0, _, _, _, _, _, _, _, _, _, _, _ => none
  | fuel + 1, s, x0, y0, x1, y1, dx, sx, dy, sy, err, color =>
    match setPixel s x0 y0 color with
    | none => none
    | some s1 =>
      if x0 = x1 ∧ y0 = y1 then some s1
      else
        let n := plotLineStep dx sx dy sy x0 y0 err
        plotLineLoop fuel s1 n.1 n.2.1 x1 y1 dx sx dy sy n.2.2 color

/-- The function `plotLine(x0, y0, x1, y1, color)`.  The loop gets
`|x1 - x0| + |y1 - y0| + 1` iterations of fuel. -/
def plotLine (s : State) (x0 y0 x1 y1 : Int) (color : Color) : Option State :=
  let dx := |x1 - x0|
  let sx : Int := if x0 < x1 then 1 else -1
  let dy := -|y1 - y0|
  let sy : Int := if y0 < y1 then 1 else -1
  let err := dx + dy
  plotLineLoop ((dx - dy).toNat + 1) s x0 y0 x1 y1 dx sx dy sy err color

/-- The cells that the `while (true)` loop of `plotLine` passes to `setPixel`, in
order (the same loop with the state left out). -/
def plotLineCellsLoop : Nat → Int → Int → Int → Int → Int → Int → Int → Int → Int →
    Option (List Cell)
  | 0, _, _, _, _, _, _, _, _, _ => none
  | fuel + 1, x0, y0, x1, y1, dx, sx, dy, sy, err =>
    if x0 = x1 ∧ y0 = y1 then some [⟨x0, y0⟩]
    else
      let n := plotLineStep dx sx dy sy x0 y0 err
      match plotLineCellsLoop fuel n.1 n.2.1 x1 y1 dx sx dy sy n.2.2 with
      | none => none
      | some cs => some (⟨x0, y0⟩ :: cs)

/-- The cells that `plotLine(x0, y0, x1, y1, _)` passes to `setPixel`, in order. -/
def plotLineCells (x0 y0 x1 y1 : Int) : Option (List Cell) :=
  let dx := |x1 - x0|
  let sx : Int := if x0 < x1 then 1 else -1
  let dy := -|y1 - y0|
  let sy : Int := if y0 < y1 then 1 else -1
  let err := dx + dy
  plotLineCellsLoop ((dx - dy).toNat + 1) x0 y0 x1 y1 dx sx dy sy err

/-- Calling `setPixel` with one colour on each cell of a list, in order. -/
def paintCells : State → List Cell → Color → Option State
  | s, [], _ => some s
  | s, c :: cs, color =>
    match setPixel s c.x c.y color with
    | none => none
    | some s1 => paintCells s1 cs color

/-! ## Rectangle -/

/-- The integers `lo, lo + 1, ..., hi` that a loop
`for (let i = lo; i <= hi; i += 1)` runs through. -/
def intRange (lo hi : Int) : List Int :=
  (List.range (hi + 1 - lo).toNat).map (fun (i : Nat) => lo + (i : Int))

/-- The inner loop of `drawRect`, `for (let x = minX; x <= maxX; x += 1)`, for one `y`. -/
def drawRectRow (s : State) (minX maxX minY maxY y : Int) (fill : Bool) : Option State :=
  (intRange minX maxX).foldlM
    (fun st x =>
      let onEdge : Bool := x = minX ∨ x = maxX ∨ y = minY ∨ y = maxY
      if fill || onEdge then setPixel st x y (some st.activeColor) else some st)
    s

/-- The function `drawRect(start, end, fill)`. -/
def drawRect (s : State) (start finish : Cell) (fill : Bool) : Option State :=
  let minX := min start.x finish.x
  let minY := min start.y finish.y
  let maxX := max start.x finish.x
  let maxY := max start.y finish.y
  (intRange minY maxY).foldlM (fun st y => drawRectRow st minX maxX minY maxY y fill) s

/-! ## History -/

/-- The function `pushHistorySnapshot()`. -/
def pushHistorySnapshot (s : State) : State :=
  let pushed := s.undoStack ++ [clonePixels s.pixels]
  let undoStack := if pushed.length > HISTORY_LIMIT then pushed.tail else pushed
  { s with undoStack := undoStack, redoStack := [] }

/-- The function `undo()`. -/
def undo (s : State) : State :=
  match s.undoStack.getLast? with
  | none => s
  | some top =>
    { s with
      redoStack := s.redoStack ++ [clonePixels s.pixels]
      pixels := top
      undoStack := s.undoStack.dropLast }

/-- The function `redo()`. -/
def redo (s : State) : State :=
  match s.redoStack.getLast? with
  | none => s
  | some top =>
    { s with
      undoStack := s.undoStack ++ [clonePixels s.pixels]
      pixels := top
      redoStack := s.redoStack.dropLast }

/-- The function `clearCanvas()`. -/
def clearCanvas (s : State) : State :=
  let s1 := pushHistorySnapshot s
  { s1 with pixels := createPixelGrid s1.gridSize }

/-- The assignment `nextPixels[y][x] = state.pixels[y][x]` of `resizeGrid`. -/
def resizeCopyCell (src : Pixels) (x y : Nat) (nextPixels : Pixels) : Option Pixels :=
  match readPixel src (x : Int) (y : Int) with
  | none => none
  | some v => writePixel nextPixels (x : Int) (y : Int) v

/-- The inner loop of `resizeGrid` for one `y`:
`nextPixels[y][x] = state.pixels[y][x]` for `x < m`. -/
def resizeCopyRow (src : Pixels) (m : Nat) (y : Nat) (nextPixels : Pixels) : Option Pixels :=
  (List.range m).foldlM (fun (acc : Pixels) (x : Nat) => resizeCopyCell src x y acc) nextPixels

/-- The function `resizeGrid(newSize)`. -/
def resizeGrid (s : State) (newSize : Nat) : Option State :=
  let s1 := pushHistorySnapshot s
  let nextPixels := createPixelGrid newSize
  let m := min newSize s1.gridSize
  match (List.range m).foldlM (fun (acc : Pixels) (y : Nat) => resizeCopyRow s1.pixels m y acc)
      nextPixels with
  | none => none
  | some p => some { s1 with gridSize := newSize, pixels := p }

/-! ## Editor session -/

/-- The state change of `setActiveTool(toolName)`. -/
def setActiveTool (s : State) (toolName : Tool) : State :=
  { s with activeTool := toolName, lineStart := none, rectStart := none }

/-- The function `applyOneShotTool(cell)`. -/
def applyOneShotTool (s : State) (cell : Cell) : Option State :=
  match s.activeTool with
  | Tool.bucket => floodFill (pushHistorySnapshot s) cell.x cell.y (some s.activeColor)
  | Tool.line =>
    match s.lineStart with
    | none => some { s with lineStart := some cell }
    | some a =>
      match plotLine (pushHistorySnapshot s) a.x a.y cell.x cell.y (some s.activeColor) with
      | none => none
      | some s2 => some { s2 with lineStart := none }
  | Tool.rectOutline =>
    match s.rectStart with
    | none => some { s with rectStart := some cell }
    | some a =>
      match drawRect (pushHistorySnapshot s) a cell false with
      | none => none
      | some s2 => some { s2 with rectStart := none }
  | Tool.rectFill =>
    match s.rectStart with
    | none => some { s with rectStart := some cell }
    | some a =>
      match drawRect (pushHistorySnapshot s) a cell true with
      | none => none
      | some s2 => some { s2 with rectStart := none }
  | _ => some s

/-- The function `handlePointerDown(event)`; `x` and `y` are the two
`Math.floor` results of `getCellFromPointer`. -/
def handlePointerDown (s : State) (x y : Int) : Option State :=
  match getCellFromPointer s x y with
  | none => some s
  | some cell =>
    match s.activeTool with
    | Tool.brush => applyBrush { pushHistorySnapshot s with isDrawing := true } cell
    | Tool.eraser => applyEraser { pushHistorySnapshot s with isDrawing := true } cell
    | _ => applyOneShotTool s cell

/-- The function `handlePointerMove(event)`. -/
def handlePointerMove (s : State) (x y : Int) : Option State :=
  if !s.isDrawing then some s
  else
    match getCellFromPointer s x y with
    | none => some s
    | some cell =>
      match s.activeTool with
      | Tool.brush => applyBrush s cell
      | Tool.eraser => applyEraser s cell
      | _ => some s

/-- The function `stopDrawing()`. -/
def stopDrawing (s : State) : State :=
  { s with isDrawing := false }

/-- The user events that the listeners registered by `initialize()` react to:
pointer events on the canvas (`pointerUp` stands for `pointerup` and
`pointerleave`), the undo, redo and clear buttons (and Ctrl+Z, Ctrl+Y), the
grid-size select, the tool buttons (and the keys b, e, g, l), the colour picker,
a palette swatch, the add-to-palette button and the zoom slider.  The PNG export
and project save buttons do not change the state; loading a project file is not
among these events. -/
inductive Event where
  | pointerDown (x y : Int)
  | pointerMove (x y : Int)
  | pointerUp
  | undo
  | redo
  | clear
  | resize (newSize : Nat)
  | selectTool (toolName : Tool)
  | colorInput (color : String)
  | swatchClick (index : Nat)
  | addPaletteColor
  | zoom (cellSize : Nat)

/-- The listener that `initialize()` registers for each event. -/
def handleEvent (s : State) : Event → Option State
  | Event.pointerDown x y => handlePointerDown s x y
  | Event.pointerMove x y => handlePointerMove s x y
  | Event.pointerUp => some (stopDrawing s)
  | Event.undo => some (undo s)
  | Event.redo => some (redo s)
  | Event.clear => some (clearCanvas s)
  | Event.resize newSize => resizeGrid s newSize
  | Event.selectTool toolName => some (setActiveTool s toolName)
  | Event.colorInput color => some { s with activeColor := color }
  | Event.swatchClick index =>
    match s.palette[index]? with
    | none => some s
    | some color => some { s with activeColor := color }
  | Event.addPaletteColor =>
    let color := s.activeColor.toLower
    if s.palette.contains color then some s
    else some { s with palette := s.palette ++ [color] }
  | Event.zoom cellSize => some { s with cellSize := cellSize }

/-- Running the listeners for a list of events, in order. -/
def runEvents : State → List Event → Option State
  | s, [] => some s
  | s, e :: es =>
    match handleEvent s e with
    | none => none
    | some s1 => runEvents s1 es

/-- The session states that some sequence of events leads to from the initial one. -/
def Reachable (s : State) : Prop :=
  ∃ es : List Event, runEvents initialState es = some s

/-- A run of `pushHistorySnapshot()` calls with arbitrary grid edits in between:
`grids` lists the content of `state.pixels` at the moment of each call. -/
def snapshotRun : State → List Pixels → State
  | s, [] => s
  | s, g :: grids => snapshotRun (pushHistorySnapshot { s with pixels := g }) grids

/-! ## Specification vocabulary for the session -/

/-- The event `e` starts a new edit in state `s`: a pointer-down on a valid cell
with the brush, the eraser or the bucket, or as the committing second click of
a line or a rectangle; a clear; a resize. -/
def StartsEdit (s : State) : Event → Prop
  | Event.pointerDown x y =>
    getCellFromPointer s x y ≠ none ∧
      (s.activeTool = Tool.brush ∨ s.activeTool = Tool.eraser ∨ s.activeTool = Tool.bucket ∨
        (s.activeTool = Tool.line ∧ s.lineStart ≠ none) ∨
        ((s.activeTool = Tool.rectOutline ∨ s.activeTool = Tool.rectFill) ∧ s.rectStart ≠ none))
  | Event.clear => True
  | Event.resize _ => True
  | _ => False

/-! ## Specification vocabulary for flood fill -/

/-- The cell `(x', y')` is one of the four neighbours of `(x, y)`. -/
def Adjacent (x y x' y' : Int) : Prop :=
  (x' = x + 1 ∧ y' = y) ∨ (x' = x - 1 ∧ y' = y) ∨ (x' = x ∧ y' = y + 1) ∨ (x' = x ∧ y' = y - 1)

/-- The cells reachable from `(startX, startY)` by a path of 4-neighbour steps
through in-bounds cells of the grid of `s` whose colour is exactly `color`. -/
inductive Connected (s : State) (color : Color) (startX startY : Int) : Int → Int → Prop
  | start : InBounds s startX startY → readPixel s.pixels startX startY = some color →
      Connected s color startX startY startX startY
  | step {x y x' y' : Int} : Connected s color startX startY x y → Adjacent x y x' y' →
      InBounds s x' y' → readPixel s.pixels x' y' = some color →
      Connected s color startX startY x' y'

/-- The number of in-bounds cells of the grid of `s` that hold `color`. -/
def colorCount (s : State) (color : Color) : Nat :=
  ((Finset.range s.gridSize ×ˢ Finset.range s.gridSize).filter
    (fun p => readPixel s.pixels (p.1 : Int) (p.2 : Int) = some color)).card

/-- The loop invariant of `floodFill` started at `(startX, startY)` on the state
`s0` with target colour `t` and replacement `r`: the grid `s` differs from `s0`
only at connected cells, which hold `r`; every valid target-coloured cell on
the work list is connected; every target-coloured neighbour of a filled
connected cell is filled or on the work list; the start cell is filled or on
the work list. -/
structure FloodInv (s0 : State) (t r : Color) (startX startY : Int) (s : State)
    (stack : List Cell) : Prop where
  wf : WellFormed s
  frame : s = { s0 with pixels := s.pixels }
  same_or_filled : ∀ x y, readPixel s.pixels x y = readPixel s0.pixels x y ∨
    (readPixel s.pixels x y = some r ∧ Connected s0 t startX startY x y)
  stack_connected : ∀ c ∈ stack, InBounds s0 c.x c.y → readPixel s0.pixels c.x c.y = some t →
    Connected s0 t startX startY c.x c.y
  closed : ∀ x y, Connected s0 t startX startY x y → readPixel s.pixels x y = some r →
    ∀ x' y', Adjacent x y x' y' → InBounds s0 x' y' → readPixel s0.pixels x' y' = some t →
      readPixel s.pixels x' y' = some r ∨ (⟨x', y'⟩ : Cell) ∈ stack
  start : readPixel s.pixels startX startY = some r ∨ (⟨startX, startY⟩ : Cell) ∈ stack

/-! ## Project files -/

/-- The parsed project document, `JSON.parse(reader.result)`, as far as
`loadProjectJson` looks at it.  A field is `none` when it is absent or has the
wrong kind of value (`gridSize` not a number, `pixels` or `palette` not an
array, `activeColor` not a string).  Documents whose `gridSize` is a number
other than a natural number, or whose arrays hold values other than strings
(`palette`) or rows of strings and `null`s (`pixels`), are outside this model. -/
structure ProjectDocument where
  version : Option Nat
  gridSize : Option Nat
  activeColor : Option String
  palette : Option (List String)
  pixels : Option Pixels
  deriving DecidableEq, Repr

/-- The error caught by the `catch` block of `loadProjectJson`, which it reports
with `alert`: the `Error('Invalid project file.')` of the validation, or a
`TypeError` of the engine. -/
inductive LoadError where
  | invalidProjectFile
  | typeError
  deriving DecidableEq, Repr

/-- The `payload` object of `saveProjectJson()`.  It is written with
`JSON.stringify` and read back with `JSON.parse`, which give back an equal value
for numbers, strings, `null` and arrays of them; the text in between is not
modelled. -/
def saveProjectJson (s : State) : ProjectDocument where
  version := some 1
  gridSize := some s.gridSize
  activeColor := some s.activeColor
  palette := some s.palette
  pixels := some s.pixels

/-- Whether `renderCanvas()` throws: its two loops read `state.pixels[y][x]` for
`y, x < gridSize`, which is a `TypeError` when the row `state.pixels[y]` does
not exist (a missing column reads `undefined` and is skipped). -/
def renderCanvasThrows (s : State) : Bool :=
  (List.range s.gridSize).any (fun (y : Nat) =>
    (List.range s.gridSize).any (fun (_ : Nat) => (s.pixels[y]?).isNone))

/-- The value of `data.activeColor || state.palette[0] || '#000000'`: an absent
value and the empty string are falsy. -/
def loadedActiveColor (activeColor : Option String) (palette : List String) : String :=
  match activeColor.filter (fun c => c != "") with
  | some c => c
  | none =>
    match (palette[0]?).filter (fun c => c != "") with
    | some c => c
    | none => "#000000"

/-- The `onload` handler of `loadProjectJson(file)` from the parsed document on:
the state it leaves and the error it reports with `alert`, if any.  The
assignments come first; `renderPalette()` and `refreshHistoryButtons()` do not
throw on the documents of the model, `renderCanvas()` may. -/
def loadProject (s : State) (data : ProjectDocument) : State × Option LoadError :=
  match data.gridSize, data.pixels, data.palette with
  | some gridSize, some pixels, some palette =>
    if gridSize = 0 then (s, some LoadError.invalidProjectFile)
    else
      let s1 : State :=
        { s with
          gridSize := gridSize
          pixels := pixels
          palette := palette
          activeColor := loadedActiveColor data.activeColor palette
          undoStack := []
          redoStack := [] }
      if renderCanvasThrows s1 then (s1, some LoadError.typeError) else (s1, none)
  | _, _, _ => (s, some LoadError.invalidProjectFile)

/-- A user action: one of the events, or the load of a parsed project document. -/
inductive Action where
  | event (e : Event)
  | load (data : ProjectDocument)

/-- The listener for each action; after a load the state is the one the handler
left, whether or not it reported an error. -/
def handleAction (s : State) : Action → Option State
  | Action.event e => handleEvent s e
  | Action.load data => some (loadProject s data).1

/-- Running the listeners for a list of actions, in order. -/
def runActions : State → List Action → Option State
  | s, [] => some s
  | s, a :: rest =>
    match handleAction s a with
    | none => none
    | some s1 => runActions s1 rest

/-- The events of a complete drag gesture: a pointer-down at `(x, y)`, a
pointer-move over each cell of `moves`, a pointer-up. -/
def dragGesture (x y : Int) (moves : List (Int × Int)) : List Event :=
  Event.pointerDown x y :: (moves.map (fun m => Event.pointerMove m.1 m.2) ++ [Event.pointerUp])

/-- The cells that the `while (stack.length)` loop of `floodFill` assigns
(`state.pixels[y][x] = replacementColor`), in order: the same loop as
`floodFillLoop`, returning the list of assignments instead of the state. -/
def floodFillWritesLoop : Nat → State → Color → Color → List Cell → Option (List Cell)
  | _, _, _, _, [] => some []
  | 0, _, _, _, _ :: _ => none
  | fuel + 1, s, targetColor, replacementColor, c :: stack =>
    if c.x < 0 ∨ c.y < 0 ∨ c.x ≥ s.gridSize ∨ c.y ≥ s.gridSize then
      floodFillWritesLoop fuel s targetColor replacementColor stack
    else
      match readPixel s.pixels c.x c.y with
      | none => none
      | some v =>
        if v ≠ targetColor then floodFillWritesLoop fuel s targetColor replacementColor stack
        else
          match writePixel s.pixels c.x c.y replacementColor with
          | none => none
          | some p =>
            (floodFillWritesLoop fuel { s with pixels := p } targetColor replacementColor
              (⟨c.x, c.y - 1⟩ :: ⟨c.x, c.y + 1⟩ :: ⟨c.x - 1, c.y⟩ :: ⟨c.x + 1, c.y⟩ :: stack)).map
              (fun ws => c :: ws)

/-- The cells that `floodFill(startX, startY, replacementColor)` assigns, in order. -/
def floodFillWrites (s : State) (startX startY : Int) (replacementColor : Color) :
    Option (List Cell) :=
  match readPixel s.pixels startX startY with
  | none => none
  | some targetColor =>
    if targetColor = replacementColor then some []
    else
      floodFillWritesLoop (4 * s.gridSize * s.gridSize + 1) s targetColor replacementColor
        [⟨startX, startY⟩]

/-- The cell `d` differs from the cell `c` by at most 1 in `x` and at most 1 in `y`. -/
def StepByOne (c d : Cell) : Prop :=
  |d.x - c.x| ≤ 1 ∧ |d.y - c.y| ≤ 1

/-- The shape of the trace `cs` of the loop of `plotLine` from the point reached
after `a` steps in `x` and `b` steps in `y` (steps of `sx` and `sy` from
`(x0, y0)`) to the end point after `DX` and `DY` steps: it starts at the
current point, ends at the end point, stays between the two, repeats no cell,
moves by at most one cell per axis at a time, and has one cell per remaining
step of the longer axis. -/
structure LinePath (x0 y0 DX DY sx sy a b : Int) (cs : List Cell) : Prop where
  head : cs.head? = some ⟨x0 + a * sx, y0 + b * sy⟩
  last : cs.getLast? = some ⟨x0 + DX * sx, y0 + DY * sy⟩
  box : ∀ c ∈ cs, ∃ a' b' : Int, a ≤ a' ∧ a' ≤ DX ∧ b ≤ b' ∧ b' ≤ DY ∧
    c = ⟨x0 + a' * sx, y0 + b' * sy⟩
  nodup : cs.Nodup
  chain : List.Chain' StepByOne cs
  lengthX : DY ≤ DX → (cs.length : Int) = DX - a + 1
  lengthY : DX ≤ DY → (cs.length : Int) = DY - b + 1

/-! ## Example sessions -/

/-- A session with a 4×4 grid, every cell transparent. -/
def grid4 : State :=
  { initialState with gridSize := 4, pixels := createPixelGrid 4 }

/-- A session with a 5×5 grid, every cell transparent. -/
def grid5 : State :=
  { initialState with gridSize := 5, pixels := createPixelGrid 5 }

/-! ## Array access lemmas -/

theorem clonePixels_eq (p : Pixels) : clonePixels p = p := by
  simp [clonePixels]

theorem wellFormed_iff (s : State) : WellFormed s ↔ IsGrid s.pixels s.gridSize := Iff.rfl

theorem readPixel_eq_some_of_isGrid {p : Pixels} {n : Nat} (h : IsGrid p n) {x y : Int}
    (hx0 : 0 ≤ x) (hx : x < n) (hy0 : 0 ≤ y) (hy : y < n) :
    ∃ v, readPixel p x y = some v := by
  obtain ⟨hl, hr⟩ := h
  have hyn : y.toNat < p.length := by omega
  have hrow : (p[y.toNat]).length = n := hr _ (List.getElem_mem _)
  have hxn : x.toNat < (p[y.toNat]).length := by omega
  refine ⟨(p[y.toNat])[x.toNat], ?_⟩
  unfold readPixel
  rw [if_neg (by omega), List.getElem?_eq_getElem hyn]
  simp [List.getElem?_eq_getElem hxn]

theorem readPixel_eq_none_of_out {p : Pixels} {n : Nat} (h : IsGrid p n) {x y : Int}
    (ho : x < 0 ∨ y < 0 ∨ x ≥ n ∨ y ≥ n) : readPixel p x y = none := by
  obtain ⟨hl, hr⟩ := h
  unfold readPixel
  by_cases h0 : x < 0 ∨ y < 0
  · rw [if_pos h0]
  · rw [if_neg h0]
    by_cases hyn : y.toNat < p.length
    · rw [List.getElem?_eq_getElem hyn]
      have hrow : (p[y.toNat]).length = n := hr _ (List.getElem_mem _)
      simp only
      apply List.getElem?_eq_none
      omega
    · rw [List.getElem?_eq_none (by omega)]

theorem writePixel_eq_some_of_isGrid {p : Pixels} {n : Nat} (h : IsGrid p n) {x y : Int}
    (hx0 : 0 ≤ x) (hx : x < n) (hy0 : 0 ≤ y) (hy : y < n) (c : Color) :
    ∃ p', writePixel p x y c = some p' := by
  obtain ⟨hl, hr⟩ := h
  have hyn : y.toNat < p.length := by omega
  have hrow : (p[y.toNat]).length = n := hr _ (List.getElem_mem _)
  have hxn : x.toNat < (p[y.toNat]).length := by omega
  refine ⟨p.set y.toNat ((p[y.toNat]).set x.toNat c), ?_⟩
  unfold writePixel
  rw [if_neg (by omega), List.getElem?_eq_getElem hyn]
  simp [hxn]

theorem writePixel_isGrid {p p' : Pixels} {n : Nat} {x y : Int} {c : Color}
    (hw : writePixel p x y c = some p') (h : IsGrid p n) : IsGrid p' n := by
  obtain ⟨hl, hr⟩ := h
  unfold writePixel at hw
  split at hw
  · cases hw
  · split at hw
    · cases hw
    · rename_i row hrow
      split at hw
      · cases hw
        refine ⟨by simp [hl], ?_⟩
        intro r hmem
        rcases List.mem_or_eq_of_mem_set hmem with h1 | h1
        · exact hr r h1
        · subst h1
          rw [List.length_set]
          exact hr row (List.getElem?_mem hrow)
      · cases hw

theorem readPixel_writePixel_same {p p' : Pixels} {x y : Int} {c : Color}
    (hw : writePixel p x y c = some p') : readPixel p' x y = some c := by
  unfold writePixel at hw
  split at hw
  · cases hw
  · rename_i h0
    split at hw
    · cases hw
    · rename_i row hrow
      split at hw
      · rename_i hxn
        cases hw
        have hyn : y.toNat < p.length := by
          by_contra hc
          rw [List.getElem?_eq_none (by omega)] at hrow
          cases hrow
        unfold readPixel
        rw [if_neg h0]
        simp [List.getElem?_set_self, hyn, hxn]
      · cases hw

theorem readPixel_writePixel_other {p p' : Pixels} {x y : Int} {c : Color}
    (hw : writePixel p x y c = some p') {x' y' : Int} (hne : x' ≠ x ∨ y' ≠ y) :
    readPixel p' x' y' = readPixel p x' y' := by
  unfold writePixel at hw
  split at hw
  · cases hw
  · rename_i h0
    split at hw
    · cases hw
    · rename_i row hrow
      split at hw
      · rename_i hxn
        cases hw
        unfold readPixel
        by_cases h0' : x' < 0 ∨ y' < 0
        · rw [if_pos h0', if_pos h0']
        · rw [if_neg h0', if_neg h0']
          by_cases hy : y.toNat = y'.toNat
          · have hx : x.toNat ≠ x'.toNat := by omega
            rw [← hy, hrow]
            have hyn : y.toNat < p.length := by
              by_contra hc
              rw [List.getElem?_eq_none (by omega)] at hrow
              cases hrow
            simp [List.getElem?_set_self, hyn, List.getElem?_set_ne hx]
          · rw [List.getElem?_set_ne hy]
      · cases hw

/-! ## `setPixel` -/

theorem setPixel_out {s : State} {x y : Int} (h : ¬ InBounds s x y) (c : Color) :
    setPixel s x y c = some s := by
  unfold setPixel
  rw [if_pos]
  unfold InBounds at h
  omega

theorem setPixel_in {s : State} {x y : Int} (h : InBounds s x y) (c : Color) :
    setPixel s x y c = (writePixel s.pixels x y c).map (fun p => { s with pixels := p }) := by
  unfold setPixel
  rw [if_neg (by unfold InBounds at h; omega)]
  cases writePixel s.pixels x y c <;> rfl

/-- On a well-formed grid `setPixel` always returns; the new state differs from
the old one in `pixels` only, is well formed, and reads `c` at `(x, y)` when
that cell is in bounds and the old value everywhere else. -/
theorem setPixel_total {s : State} (hwf : WellFormed s) (x y : Int) (c : Color) :
    ∃ s', setPixel s x y c = some s' ∧ WellFormed s' ∧ s' = { s with pixels := s'.pixels } ∧
      (InBounds s x y → readPixel s'.pixels x y = some c) ∧
      (¬ InBounds s x y → s' = s) ∧
      ∀ x' y', (x' ≠ x ∨ y' ≠ y) → readPixel s'.pixels x' y' = readPixel s.pixels x' y' := by
  by_cases hin : InBounds s x y
  · obtain ⟨p, hp⟩ := writePixel_eq_some_of_isGrid hwf hin.1 hin.2.1 hin.2.2.1 hin.2.2.2 c
    refine ⟨{ s with pixels := p }, ?_, writePixel_isGrid hp hwf, rfl, ?_, ?_, ?_⟩
    · rw [setPixel_in hin, hp]
      rfl
    · intro _
      exact readPixel_writePixel_same hp
    · intro h
      exact absurd hin h
    · intro x' y' hne
      exact readPixel_writePixel_other hp hne
  · exact ⟨s, setPixel_out hin c, hwf, rfl, fun h => absurd h hin, fun _ => rfl, fun _ _ _ => rfl⟩

/-- C10: on a well-formed grid, `setPixel(x, y, c)` at an in-bounds coordinate
returns a state whose cell `(x, y)` reads `c`, whose every other cell reads
what it read before, and whose other fields and grid shape are those of the
old state; at an out-of-bounds coordinate it returns the state unchanged; in
both cases it returns (no error). -/
theorem setPixel_spec (s : State) (hwf : WellFormed s) (x y : Int) (c : Color) :
    (InBounds s x y →
      ∃ s', setPixel s x y c = some s' ∧
        readPixel s'.pixels x y = some c ∧
        (∀ x' y', (x' ≠ x ∨ y' ≠ y) → readPixel s'.pixels x' y' = readPixel s.pixels x' y') ∧
        WellFormed s' ∧ s' = { s with pixels := s'.pixels }) ∧
    (¬ InBounds s x y → setPixel s x y c = some s) := by
  refine ⟨fun hin => ?_, fun hout => setPixel_out hout c⟩
  obtain ⟨s', h1, h2, h3, h4, _, h6⟩ := setPixel_total hwf x y c
  exact ⟨s', h1, h4 hin, h6, h2, h3⟩

/-- Witness for C10 on the 4×4 example grid: an in-bounds write at `(1, 2)` and
an out-of-bounds write at `(4, 0)`. -/
theorem setPixel_spec_witness :
    WellFormed grid4 ∧
    (∃ s', setPixel grid4 1 2 (some "#ff0000") = some s' ∧
      readPixel s'.pixels 1 2 = some (some "#ff0000")) ∧
    setPixel grid4 4 0 (some "#ff0000") = some grid4 :=
  ⟨by decide,
    (fun ⟨s', h1, h2, _⟩ => ⟨s', h1, h2⟩)
      ((setPixel_spec grid4 (by decide) 1 2 (some "#ff0000")).1 (by decide)),
    (setPixel_spec grid4 (by decide) 4 0 (some "#ff0000")).2 (by decide)⟩

/-! ## History -/

theorem pushHistorySnapshot_undoStack (s : State) (h : s.undoStack.length ≤ HISTORY_LIMIT) :
    (pushHistorySnapshot s).undoStack =
      (s.undoStack ++ [s.pixels]).drop ((s.undoStack ++ [s.pixels]).length - HISTORY_LIMIT) := by
  simp only [pushHistorySnapshot, clonePixels_eq]
  split
  · rename_i hgt
    have : (s.undoStack ++ [s.pixels]).length - HISTORY_LIMIT = 1 := by
      simp only [List.length_append, List.length_singleton] at hgt ⊢
      omega
    rw [this, List.drop_one]
  · rename_i hle
    have : (s.undoStack ++ [s.pixels]).length - HISTORY_LIMIT = 0 := by omega
    rw [this, List.drop_zero]

theorem pushHistorySnapshot_undoStack_length (s : State)
    (h : s.undoStack.length ≤ HISTORY_LIMIT) :
    (pushHistorySnapshot s).undoStack.length ≤ HISTORY_LIMIT := by
  rw [pushHistorySnapshot_undoStack s h, List.length_drop]
  omega

theorem pushHistorySnapshot_redoStack (s : State) : (pushHistorySnapshot s).redoStack = [] := rfl

theorem pushHistorySnapshot_pixels (s : State) : (pushHistorySnapshot s).pixels = s.pixels := rfl

theorem pushHistorySnapshot_gridSize (s : State) :
    (pushHistorySnapshot s).gridSize = s.gridSize := rfl

/-- The newest entry of the undo stack after `pushHistorySnapshot()` is the
current grid (the limit is at least 1, so the entry just pushed is kept). -/
theorem pushHistorySnapshot_getLast (s : State) :
    (pushHistorySnapshot s).undoStack.getLast? = some s.pixels := by
  simp only [pushHistorySnapshot, clonePixels_eq]
  split
  · rename_i hgt
    cases hu : s.undoStack with
    | nil => simp [hu, HISTORY_LIMIT] at hgt
    | cons a l => simp
  · simp

theorem dropOldest_append {α : Type} (a rest : List α) (L : Nat) :
    (a.drop (a.length - L) ++ rest).drop ((a.drop (a.length - L) ++ rest).length - L) =
      (a ++ rest).drop ((a ++ rest).length - L) := by
  have h1 : a.drop (a.length - L) ++ rest = (a ++ rest).drop (a.length - L) := by
    rw [List.drop_append_of_le_length (by omega)]
  rw [h1, List.drop_drop]
  congr 1
  simp only [List.length_drop, List.length_append]
  omega

theorem snapshotRun_undoStack (grids : List Pixels) :
    ∀ s : State, s.undoStack.length ≤ HISTORY_LIMIT →
      (snapshotRun s grids).undoStack =
        (s.undoStack ++ grids).drop ((s.undoStack ++ grids).length - HISTORY_LIMIT) := by
  induction grids with
  | nil =>
    intro s h
    have : (s.undoStack ++ []).length - HISTORY_LIMIT = 0 := by
      simp only [List.append_nil]
      omega
    rw [snapshotRun, this, List.drop_zero, List.append_nil]
  | cons g grids ih =>
    intro s h
    have h1 : ({ s with pixels := g } : State).undoStack.length ≤ HISTORY_LIMIT := h
    rw [snapshotRun, ih _ (pushHistorySnapshot_undoStack_length _ h1),
      pushHistorySnapshot_undoStack _ h1]
    have e : s.undoStack ++ g :: grids = (s.undoStack ++ [g]) ++ grids := by simp
    rw [e]
    exact dropOldest_append _ _ _

/-- C7: starting from an empty undo stack, after `HISTORY_LIMIT + k` calls of
`pushHistorySnapshot()` (the grid holding `grids[i]` at the `i`-th call) the
undo stack has exactly `HISTORY_LIMIT = 30` entries: the snapshots of the last
30 calls, oldest first; the first `k` snapshots are gone. -/
theorem history_limit (s : State) (grids : List Pixels) (k : Nat)
    (hempty : s.undoStack = []) (hlen : grids.length = HISTORY_LIMIT + k) :
    (snapshotRun s grids).undoStack.length = HISTORY_LIMIT ∧
    HISTORY_LIMIT = 30 ∧
    (snapshotRun s grids).undoStack = grids.drop k ∧
    (snapshotRun s grids).undoStack = (grids.reverse.take 30).reverse := by
  have h := snapshotRun_undoStack grids s (by simp [hempty])
  rw [hempty, List.nil_append, hlen, Nat.add_sub_cancel_left] at h
  refine ⟨?_, rfl, h, ?_⟩
  · rw [h, List.length_drop, hlen]
    omega
  · rw [h]
    have : grids.reverse.take 30 = (grids.drop k).reverse := by
      rw [List.reverse_drop]
      congr 1
      simp [hlen, HISTORY_LIMIT]
    rw [this, List.reverse_reverse]

/-- Witness for C7: 32 snapshots (grids of sizes 0 to 31) from the initial session. -/
theorem history_limit_witness :
    (snapshotRun initialState ((List.range 32).map createPixelGrid)).undoStack =
      ((List.range 32).map createPixelGrid).drop 2 :=
  (history_limit initialState ((List.range 32).map createPixelGrid) 2 rfl (by decide)).2.2.1

/-- C8: when the undo stack is not empty, `undo()` followed by `redo()` gives
back the same grid, the same undo stack and the same redo stack (indeed the
same state). -/
theorem undo_redo (s : State) (h : s.undoStack ≠ []) :
    (redo (undo s)).pixels = s.pixels ∧
    (redo (undo s)).undoStack = s.undoStack ∧
    (redo (undo s)).redoStack = s.redoStack ∧
    redo (undo s) = s := by
  have key : redo (undo s) = s := by
    obtain ⟨top, htop⟩ : ∃ top, s.undoStack.getLast? = some top := by
      cases hu : s.undoStack.getLast? with
      | none => exact absurd (List.getLast?_eq_none_iff.mp hu) h
      | some top => exact ⟨top, rfl⟩
    have hsplit : s.undoStack.dropLast ++ [top] = s.undoStack :=
      List.dropLast_append_getLast? top htop
    simp only [undo, htop, redo, clonePixels_eq, List.getLast?_append, List.getLast?_singleton,
      List.dropLast_concat, hsplit]
    rfl
  rw [key]
  exact ⟨rfl, rfl, rfl, rfl⟩

/-- Witness for C8: the 4×4 example session after one snapshot. -/
theorem undo_redo_witness :
    (pushHistorySnapshot grid4).undoStack ≠ [] ∧
    redo (undo (pushHistorySnapshot grid4)) = pushHistorySnapshot grid4 :=
  ⟨by decide, (undo_redo (pushHistorySnapshot grid4) (by decide)).2.2.2⟩

/-! ## Rectangle -/

theorem mem_intRange {lo hi x : Int} : x ∈ intRange lo hi ↔ lo ≤ x ∧ x ≤ hi := by
  unfold intRange
  simp only [List.mem_map, List.mem_range]
  constructor
  · rintro ⟨i, hlt, rfl⟩
    omega
  · intro h
    refine ⟨(x - lo).toNat, ?_, ?_⟩ <;> omega

/-- The inner loop of `drawRect` over any list of columns: it returns, keeps the
grid well formed, changes `pixels` only, and paints exactly the in-bounds cells
of row `y` that it was asked to paint. -/
theorem drawRectRow_fold (minX maxX minY maxY y : Int) (fill : Bool) (xs : List Int) :
    ∀ s : State, WellFormed s →
      ∃ s', xs.foldlM
          (fun st x =>
            let onEdge : Bool := x = minX ∨ x = maxX ∨ y = minY ∨ y = maxY
            if fill || onEdge then setPixel st x y (some st.activeColor) else some st) s = some s' ∧
        WellFormed s' ∧ s' = { s with pixels := s'.pixels } ∧
        ∀ x' y',
          ((y' = y ∧ x' ∈ xs ∧ InBounds s x' y' ∧
              (fill = true ∨ x' = minX ∨ x' = maxX ∨ y = minY ∨ y = maxY)) →
            readPixel s'.pixels x' y' = some (some s.activeColor)) ∧
          (¬ (y' = y ∧ x' ∈ xs ∧ InBounds s x' y' ∧
              (fill = true ∨ x' = minX ∨ x' = maxX ∨ y = minY ∨ y = maxY)) →
            readPixel s'.pixels x' y' = readPixel s.pixels x' y') := by
  induction xs with
  | nil =>
    intro s hwf
    refine ⟨s, rfl, hwf, rfl, fun x' y' => ⟨?_, fun _ => rfl⟩⟩
    rintro ⟨_, hmem, _⟩
    cases hmem
  | cons x xs ih =>
    intro s hwf
    simp only [List.foldlM_cons]
    by_cases hc : (fill = true ∨ x = minX ∨ x = maxX ∨ y = minY ∨ y = maxY)
    · have hcond : (fill || decide (x = minX ∨ x = maxX ∨ y = minY ∨ y = maxY)) = true := by
        rcases hc with h | h
        · simp [h]
        · simp [h]
      obtain ⟨s1, h1, hwf1, hfr1, hin1, hout1, hoth1⟩ :=
        setPixel_total hwf x y (some s.activeColor)
      obtain ⟨s', h2, hwf', hfr', hrd⟩ := ih s1 hwf1
      have hcol : s1.activeColor = s.activeColor := by rw [hfr1]
      have hgs : s1.gridSize = s.gridSize := by rw [hfr1]
      have hinb : ∀ a b, InBounds s1 a b ↔ InBounds s a b := by
        intro a b
        unfold InBounds
        rw [hgs]
      refine ⟨s', ?_, hwf', ?_, ?_⟩
      · simp only [hcond, if_true, h1, Option.bind_eq_bind, Option.some_bind]
        exact h2
      · rw [hfr'] 
        rw [hfr1]
      · intro x' y'
        obtain ⟨hp, hn⟩ := hrd x' y'
        rw [hcol] at hp
        simp only [hinb] at hp hn
        constructor
        · rintro ⟨hy, hmem, hb, hcnd⟩
          by_cases hxs : x' ∈ xs
          · exact hp ⟨hy, hxs, hb, hcnd⟩
          · have hx : x' = x := by
              rcases List.mem_cons.mp hmem with h | h
              · exact h
              · exact absurd h hxs
            rw [hn (fun h => hxs h.2.1)]
            subst hx
            subst hy
            exact hin1 hb
        · intro hneg
          by_cases hxs : (y' = y ∧ x' ∈ xs ∧ InBounds s x' y' ∧
              (fill = true ∨ x' = minX ∨ x' = maxX ∨ y = minY ∨ y = maxY))
          · exact absurd ⟨hxs.1, List.mem_cons_of_mem _ hxs.2.1, hxs.2.2⟩ hneg
          · rw [hn hxs]
            by_cases hb : InBounds s x y
            · apply hoth1
              by_contra hcon
              push_neg at hcon
              obtain ⟨rfl, rfl⟩ := hcon
              exact hneg ⟨rfl, List.mem_cons_self _ _, hb, hc⟩
            · rw [hout1 hb]
    · have hcond : (fill || decide (x = minX ∨ x = maxX ∨ y = minY ∨ y = maxY)) = false := by
        push_neg at hc
        simp [hc.1, hc.2]
      obtain ⟨s', h2, hwf', hfr', hrd⟩ := ih s hwf
      refine ⟨s', ?_, hwf', hfr', ?_⟩
      · simp only [hcond, Bool.false_eq_true, if_false, Option.bind_eq_bind, Option.some_bind]
        exact h2
      · intro x' y'
        obtain ⟨hp, hn⟩ := hrd x' y'
        constructor
        · rintro ⟨hy, hmem, hb, hcnd⟩
          rcases List.mem_cons.mp hmem with h | h
          · subst h
            exact absurd hcnd hc
          · exact hp ⟨hy, h, hb, hcnd⟩
        · intro hneg
          apply hn
          rintro ⟨hy, hmem, hb, hcnd⟩
          exact hneg ⟨hy, List.mem_cons_of_mem _ hmem, hb, hcnd⟩

/-- The outer loop of `drawRect` over any list of rows. -/
theorem drawRect_fold (minX maxX minY maxY : Int) (fill : Bool) (ys : List Int) :
    ∀ s : State, WellFormed s →
      ∃ s', ys.foldlM (fun st y => drawRectRow st minX maxX minY maxY y fill) s = some s' ∧
        WellFormed s' ∧ s' = { s with pixels := s'.pixels } ∧
        ∀ x' y',
          ((y' ∈ ys ∧ (minX ≤ x' ∧ x' ≤ maxX) ∧ InBounds s x' y' ∧
              (fill = true ∨ x' = minX ∨ x' = maxX ∨ y' = minY ∨ y' = maxY)) →
            readPixel s'.pixels x' y' = some (some s.activeColor)) ∧
          (¬ (y' ∈ ys ∧ (minX ≤ x' ∧ x' ≤ maxX) ∧ InBounds s x' y' ∧
              (fill = true ∨ x' = minX ∨ x' = maxX ∨ y' = minY ∨ y' = maxY)) →
            readPixel s'.pixels x' y' = readPixel s.pixels x' y') := by
  induction ys with
  | nil =>
    intro s hwf
    refine ⟨s, rfl, hwf, rfl, fun x' y' => ⟨?_, fun _ => rfl⟩⟩
    rintro ⟨hmem, _⟩
    cases hmem
  | cons y ys ih =>
    intro s hwf
    simp only [List.foldlM_cons]
    obtain ⟨s1, h1, hwf1, hfr1, hrow⟩ :=
      drawRectRow_fold minX maxX minY maxY y fill (intRange minX maxX) s hwf
    obtain ⟨s', h2, hwf', hfr', hrd⟩ := ih s1 hwf1
    have hcol : s1.activeColor = s.activeColor := by rw [hfr1]
    have hgs : s1.gridSize = s.gridSize := by rw [hfr1]
    have hinb : ∀ a b, InBounds s1 a b ↔ InBounds s a b := by
      intro a b
      unfold InBounds
      rw [hgs]
    refine ⟨s', ?_, hwf', ?_, ?_⟩
    · have : drawRectRow s minX maxX minY maxY y fill = some s1 := h1
      simp only [this, Option.bind_eq_bind, Option.some_bind]
      exact h2
    · rw [hfr']
      rw [hfr1]
    · intro x' y'
      obtain ⟨hp, hn⟩ := hrd x' y'
      obtain ⟨hrp, hrn⟩ := hrow x' y'
      rw [hcol] at hp
      simp only [hinb] at hp hn
      simp only [mem_intRange] at hrp hrn
      constructor
      · rintro ⟨hmem, hx, hb, hcnd⟩
        by_cases hys : y' ∈ ys
        · exact hp ⟨hys, hx, hb, hcnd⟩
        · have hy : y' = y := by
            rcases List.mem_cons.mp hmem with h | h
            · exact h
            · exact absurd h hys
          rw [hn (fun h => hys h.1)]
          subst hy
          exact hrp ⟨rfl, hx, hb, hcnd⟩
      · intro hneg
        have h1' : ¬ (y' ∈ ys ∧ (minX ≤ x' ∧ x' ≤ maxX) ∧ InBounds s x' y' ∧
            (fill = true ∨ x' = minX ∨ x' = maxX ∨ y' = minY ∨ y' = maxY)) := by
          rintro ⟨hmem, rest⟩
          exact hneg ⟨List.mem_cons_of_mem _ hmem, rest⟩
        rw [hn h1']
        apply hrn
        rintro ⟨hy, hx, hb, hcnd⟩
        subst hy
        exact hneg ⟨List.mem_cons_self _ _, hx, hb, hcnd⟩

/-- C6: on a well-formed grid, for two in-bounds corner cells in either order,
`drawRect(start, end, fill)` returns a state that differs from the old one in
`pixels` only, in which a cell `(x, y)` of the normalized inclusive box
`[minX, maxX] × [minY, maxY]` holds the active colour when `fill` is set or the
cell lies on the box edge (`x ∈ {minX, maxX}` or `y ∈ {minY, maxY}`), and every
other cell (outside the box, or strictly inside it in outline mode) reads what
it read before.  With `start = end` exactly that one cell is painted in both
modes.  On the 5×5 example grid the outline from `(1,1)` to `(3,3)` paints the 8
edge cells and leaves `(2,2)` transparent. -/
theorem drawRect_spec (s : State) (hwf : WellFormed s) (start finish : Cell)
    (hs : InBounds s start.x start.y) (hf : InBounds s finish.x finish.y) (fill : Bool) :
    (∃ s', drawRect s start finish fill = some s' ∧
      WellFormed s' ∧ s' = { s with pixels := s'.pixels } ∧
      ∀ x y,
        ((min start.x finish.x ≤ x ∧ x ≤ max start.x finish.x ∧
            min start.y finish.y ≤ y ∧ y ≤ max start.y finish.y ∧
            (fill = true ∨ x = min start.x finish.x ∨ x = max start.x finish.x ∨
              y = min start.y finish.y ∨ y = max start.y finish.y)) →
          readPixel s'.pixels x y = some (some s.activeColor)) ∧
        (¬ (min start.x finish.x ≤ x ∧ x ≤ max start.x finish.x ∧
            min start.y finish.y ≤ y ∧ y ≤ max start.y finish.y ∧
            (fill = true ∨ x = min start.x finish.x ∨ x = max start.x finish.x ∨
              y = min start.y finish.y ∨ y = max start.y finish.y)) →
          readPixel s'.pixels x y = readPixel s.pixels x y) ∧
        (start = finish →
          (readPixel s'.pixels x y ≠ readPixel s.pixels x y → x = start.x ∧ y = start.y) ∧
          readPixel s'.pixels start.x start.y = some (some s.activeColor))) ∧
    drawRect grid5 ⟨1, 1⟩ ⟨3, 3⟩ false = some { grid5 with pixels :=
      [[none, none, none, none, none],
       [none, some "#ff5722", some "#ff5722", some "#ff5722", none],
       [none, some "#ff5722", none, some "#ff5722", none],
       [none, some "#ff5722", some "#ff5722", some "#ff5722", none],
       [none, none, none, none, none]] } := by
  refine ⟨?_, by decide⟩
  obtain ⟨s', h1, hwf', hfr, hrd⟩ :=
    drawRect_fold (min start.x finish.x) (max start.x finish.x) (min start.y finish.y)
      (max start.y finish.y) fill (intRange (min start.y finish.y) (max start.y finish.y)) s hwf
  refine ⟨s', h1, hwf', hfr, ?_⟩
  intro x y
  obtain ⟨hp, hn⟩ := hrd x y
  simp only [mem_intRange] at hp hn
  have hbox : (min start.x finish.x ≤ x ∧ x ≤ max start.x finish.x ∧
      min start.y finish.y ≤ y ∧ y ≤ max start.y finish.y) → InBounds s x y := by
    unfold InBounds at hs hf ⊢
    rintro ⟨h1, h2, h3, h4⟩
    rcases min_choice start.x finish.x with e1 | e1 <;>
    rcases max_choice start.x finish.x with e2 | e2 <;>
    rcases min_choice start.y finish.y with e3 | e3 <;>
    rcases max_choice start.y finish.y with e4 | e4 <;>
    rw [e1] at h1 <;> rw [e2] at h2 <;> rw [e3] at h3 <;> rw [e4] at h4 <;>
    omega
  have hpos : (min start.x finish.x ≤ x ∧ x ≤ max start.x finish.x ∧
            min start.y finish.y ≤ y ∧ y ≤ max start.y finish.y ∧
            (fill = true ∨ x = min start.x finish.x ∨ x = max start.x finish.x ∨
              y = min start.y finish.y ∨ y = max start.y finish.y)) →
          readPixel s'.pixels x y = some (some s.activeColor) := by
    rintro ⟨h1, h2, h3, h4, h5⟩
    exact hp ⟨⟨h3, h4⟩, ⟨h1, h2⟩, hbox ⟨h1, h2, h3, h4⟩, h5⟩
  have hneg : ¬ (min start.x finish.x ≤ x ∧ x ≤ max start.x finish.x ∧
            min start.y finish.y ≤ y ∧ y ≤ max start.y finish.y ∧
            (fill = true ∨ x = min start.x finish.x ∨ x = max start.x finish.x ∨
              y = min start.y finish.y ∨ y = max start.y finish.y)) →
          readPixel s'.pixels x y = readPixel s.pixels x y := by
    intro h
    apply hn
    rintro ⟨⟨h3, h4⟩, ⟨h1, h2⟩, _, h5⟩
    exact h ⟨h1, h2, h3, h4, h5⟩
  refine ⟨hpos, hneg, ?_⟩
  intro heq
  subst heq
  constructor
  · intro hne
    by_contra hxy
    apply hne
    apply hneg
    rintro ⟨h1, h2, h3, h4, _⟩
    simp only [min_self, max_self] at h1 h2 h3 h4
    exact hxy ⟨le_antisymm h2 h1, le_antisymm h4 h3⟩
  · obtain ⟨hp2, _⟩ := hrd start.x start.y
    simp only [mem_intRange] at hp2
    apply hp2
    simp only [min_self, max_self, le_refl, and_self, true_and]
    exact ⟨hs, Or.inr (Or.inl trivial)⟩

/-- Witness for C6: the outline from `(3,3)` to `(1,1)` (corners swapped) on the
5×5 example grid paints the corner `(1,3)` and leaves the centre as it was. -/
theorem drawRect_spec_witness :
    ∃ s', drawRect grid5 ⟨3, 3⟩ ⟨1, 1⟩ false = some s' ∧
      readPixel s'.pixels 1 3 = some (some grid5.activeColor) ∧
      readPixel s'.pixels 2 2 = readPixel grid5.pixels 2 2 :=
  (fun ⟨s', h1, _, _, h4⟩ => ⟨s', h1, (h4 1 3).1 (by decide), (h4 2 2).2.1 (by decide)⟩)
    (drawRect_spec grid5 (by decide) ⟨3, 3⟩ ⟨1, 1⟩ (by decide) (by decide) false).1

/-! ## Painting a list of cells -/

/-- On a well-formed grid `paintCells` returns; the result is well formed,
differs in `pixels` only, reads `c` at the in-bounds cells of the list and the
old value everywhere else. -/
theorem paintCells_total (c : Color) (cs : List Cell) :
    ∀ s : State, WellFormed s →
      ∃ s', paintCells s cs c = some s' ∧ WellFormed s' ∧ s' = { s with pixels := s'.pixels } ∧
        ∀ x y,
          ((⟨x, y⟩ ∈ cs ∧ InBounds s x y) → readPixel s'.pixels x y = some c) ∧
          (¬ (⟨x, y⟩ ∈ cs ∧ InBounds s x y) → readPixel s'.pixels x y = readPixel s.pixels x y) := by
  induction cs with
  | nil =>
    intro s hwf
    refine ⟨s, rfl, hwf, rfl, fun x y => ⟨?_, fun _ => rfl⟩⟩
    rintro ⟨hmem, _⟩
    cases hmem
  | cons a cs ih =>
    intro s hwf
    obtain ⟨s1, h1, hwf1, hfr1, hin1, hout1, hoth1⟩ := setPixel_total hwf a.x a.y c
    obtain ⟨s', h2, hwf', hfr', hrd⟩ := ih s1 hwf1
    have hgs : s1.gridSize = s.gridSize := by rw [hfr1]
    have hinb : ∀ a b, InBounds s1 a b ↔ InBounds s a b := by
      intro a b
      unfold InBounds
      rw [hgs]
    refine ⟨s', ?_, hwf', ?_, ?_⟩
    · simp only [paintCells, h1]
      exact h2
    · rw [hfr']
      rw [hfr1]
    · intro x y
      obtain ⟨hp, hn⟩ := hrd x y
      simp only [hinb] at hp hn
      constructor
      · rintro ⟨hmem, hb⟩
        by_cases hcs : (⟨x, y⟩ : Cell) ∈ cs
        · exact hp ⟨hcs, hb⟩
        · have ha : (⟨x, y⟩ : Cell) = a := by
            rcases List.mem_cons.mp hmem with h | h
            · exact h
            · exact absurd h hcs
          rw [hn (fun h => hcs h.1)]
          subst ha
          exact hin1 hb
      · intro hneg
        have h1' : ¬ ((⟨x, y⟩ : Cell) ∈ cs ∧ InBounds s x y) := by
          rintro ⟨hmem, hb⟩
          exact hneg ⟨List.mem_cons_of_mem _ hmem, hb⟩
        rw [hn h1']
        by_cases hb : InBounds s a.x a.y
        · apply hoth1
          by_contra hcon
          push_neg at hcon
          obtain ⟨rfl, rfl⟩ := hcon
          exact hneg ⟨List.mem_cons_self _ _, hb⟩
        · rw [hout1 hb]

/-! ## Line -/

/-- The loop of `plotLine` is `setPixel` applied to the cells of its trace. -/
theorem plotLineLoop_eq_paintCells (x1 y1 dx sx dy sy : Int) (color : Color) :
    ∀ (fuel : Nat) (s : State) (x0 y0 err : Int),
      plotLineLoop fuel s x0 y0 x1 y1 dx sx dy sy err color =
        (plotLineCellsLoop fuel x0 y0 x1 y1 dx sx dy sy err).bind
          (fun cs => paintCells s cs color) := by
  intro fuel
  induction fuel with
  | zero =>
    intro s x0 y0 err
    rfl
  | succ fuel ih =>
    intro s x0 y0 err
    rw [plotLineLoop, plotLineCellsLoop]
    by_cases hbreak : x0 = x1 ∧ y0 = y1
    · rw [if_pos hbreak]
      simp only [if_pos hbreak, Option.some_bind, paintCells]
    · simp only [if_neg hbreak]
      cases hs : setPixel s x0 y0 color with
      | none =>
        simp only
        cases plotLineCellsLoop fuel (plotLineStep dx sx dy sy x0 y0 err).1
          (plotLineStep dx sx dy sy x0 y0 err).2.1 x1 y1 dx sx dy sy
          (plotLineStep dx sx dy sy x0 y0 err).2.2 with
        | none => rfl
        | some cs => simp [paintCells, hs]
      | some s1 =>
        simp only
        rw [ih]
        cases plotLineCellsLoop fuel (plotLineStep dx sx dy sy x0 y0 err).1
          (plotLineStep dx sx dy sy x0 y0 err).2.1 x1 y1 dx sx dy sy
          (plotLineStep dx sx dy sy x0 y0 err).2.2 with
        | none => rfl
        | some cs => simp [paintCells, hs]

theorem plotLine_eq_paintCells (s : State) (x0 y0 x1 y1 : Int) (color : Color) :
    plotLine s x0 y0 x1 y1 color =
      (plotLineCells x0 y0 x1 y1).bind (fun cs => paintCells s cs color) := by
  unfold plotLine plotLineCells
  exact plotLineLoop_eq_paintCells _ _ _ _ _ _ _ _ _ _ _ _

/-- A run of the loop in which every pass moves by the same `(px, py)` and
leaves `err` as it is: it visits `(x + i * px, y + i * py)` for `i = 0..k`. -/
theorem plotLineCellsLoop_const (dx sx dy sy err px py : Int)
    (hstep : ∀ x y, plotLineStep dx sx dy sy x y err = (x + px, y + py, err))
    (hp : px ≠ 0 ∨ py ≠ 0) :
    ∀ (k fuel : Nat) (x y : Int), k < fuel →
      plotLineCellsLoop fuel x y (x + k * px) (y + k * py) dx sx dy sy err =
        some ((List.range (k + 1)).map (fun (i : Nat) => (⟨x + i * px, y + i * py⟩ : Cell))) := by
  intro k
  induction k with
  | zero =>
    intro fuel x y hk
    obtain ⟨f, rfl⟩ : ∃ f, fuel = f + 1 := ⟨fuel - 1, by omega⟩
    rw [plotLineCellsLoop, if_pos (by simp)]
    simp [List.range_succ]
  | succ k ih =>
    intro fuel x y hk
    obtain ⟨f, rfl⟩ : ∃ f, fuel = f + 1 := ⟨fuel - 1, by omega⟩
    have hne : ¬ (x = x + ((k + 1 : Nat) : Int) * px ∧ y = y + ((k + 1 : Nat) : Int) * py) := by
      rintro ⟨h1, h2⟩
      have hk0 : ((k + 1 : Nat) : Int) ≠ 0 := by omega
      rcases hp with h | h
      · have : ((k + 1 : Nat) : Int) * px = 0 := by linarith
        rcases mul_eq_zero.mp this with h' | h'
        · exact hk0 h'
        · exact h h'
      · have : ((k + 1 : Nat) : Int) * py = 0 := by linarith
        rcases mul_eq_zero.mp this with h' | h'
        · exact hk0 h'
        · exact h h'
    rw [plotLineCellsLoop, if_neg hne]
    simp only [hstep]
    have e1 : x + ((k + 1 : Nat) : Int) * px = (x + px) + (k : Int) * px := by
      push_cast
      ring
    have e2 : y + ((k + 1 : Nat) : Int) * py = (y + py) + (k : Int) * py := by
      push_cast
      ring
    rw [e1, e2, ih f (x + px) (y + py) (by omega)]
    simp only
    rw [List.range_succ_eq_map (k + 1)]
    simp only [List.map_cons, List.map_map, Nat.cast_zero, zero_mul, add_zero]
    congr 2
    apply List.map_congr_left
    intro i _
    simp only [Function.comp, Nat.cast_succ]
    congr 1 <;> ring

/-! ## Straight and diagonal lines -/

theorem straight_aux (x0 y0 A B sxv syv px py : Int) (n : Nat)
    (hA : 0 ≤ A) (hB : 0 ≤ B) (hn : (n : Int) = max A B) (hcase : A = 0 ∨ B = 0 ∨ A = B)
    (hpx : px = if A = 0 then 0 else sxv) (hpy : py = if B = 0 then 0 else syv)
    (hsx : sxv = 1 ∨ sxv = -1) (hsy : syv = 1 ∨ syv = -1) (hpos : 0 < n) :
    plotLineCellsLoop ((A - -B).toNat + 1) x0 y0 (x0 + n * px) (y0 + n * py) A sxv (-B) syv
        (A + -B) =
      some ((List.range (n + 1)).map (fun (i : Nat) => (⟨x0 + i * px, y0 + i * py⟩ : Cell))) := by
  have hmax : max A B = A ∨ max A B = B := max_choice A B
  apply plotLineCellsLoop_const
  · intro x y
    unfold plotLineStep
    simp only [Prod.mk.injEq]
    rcases hcase with h | h | h
    · subst h
      have hB' : 0 < B := by
        rcases hmax with h | h <;> omega
      have c1 : ¬ (2 * (0 + -B) ≥ -B) := by omega
      have c2 : 2 * (0 + -B) ≤ 0 := by omega
      have hB0 : B ≠ 0 := by omega
      simp only [c1, c2, if_true, if_false, hpx, hpy, hB0]
      refine ⟨by omega, trivial, by omega⟩
    · subst h
      have hA' : 0 < A := by
        rcases hmax with h | h <;> omega
      have c1 : 2 * (A + -0) ≥ -0 := by omega
      have c2 : ¬ (2 * (A + -0) ≤ A) := by omega
      have hA0 : A ≠ 0 := by omega
      simp only [c1, c2, if_true, if_false, hpx, hpy, hA0]
      refine ⟨trivial, by omega, by omega⟩
    · subst h
      have hA' : 0 < A := by
        rcases hmax with h | h <;> omega
      have c1 : 2 * (A + -A) ≥ -A := by omega
      have c2 : 2 * (A + -A) ≤ A := by omega
      have hA0 : A ≠ 0 := by omega
      simp only [c1, c2, if_true, if_false, hpx, hpy, hA0]
      refine ⟨trivial, trivial, by omega⟩
  · by_cases hA0 : A = 0
    · right
      have hB0 : B ≠ 0 := by
        rcases hmax with h | h <;> omega
      rw [hpy, if_neg hB0]
      rcases hsy with h | h <;> omega
    · left
      rw [hpx, if_neg hA0]
      rcases hsx with h | h <;> omega
  · rcases hmax with h | h <;> omega

theorem axis_cases (a b : Int) :
    (a < b ∧ |b - a| = b - a ∧ Int.sign (b - a) = 1 ∧ (if a < b then (1 : Int) else -1) = 1) ∨
    (a = b ∧ |b - a| = 0 ∧ Int.sign (b - a) = 0 ∧ (if a < b then (1 : Int) else -1) = -1) ∨
    (b < a ∧ |b - a| = a - b ∧ Int.sign (b - a) = -1 ∧
      (if a < b then (1 : Int) else -1) = -1) := by
  rcases lt_trichotomy a b with h | h | h
  · left
    refine ⟨h, abs_of_pos (by omega), Int.sign_eq_one_of_pos (by omega), if_pos h⟩
  · right; left
    subst h
    simp
  · right; right
    refine ⟨h, ?_, Int.sign_eq_neg_one_of_neg (by omega), if_neg (by omega)⟩
    rw [abs_of_neg (by omega)]
    omega

/-- The trace of `plotLine` for identical, horizontal, vertical and 45° endpoints. -/
theorem plotLineCells_straight (x0 y0 x1 y1 : Int)
    (h : x0 = x1 ∨ y0 = y1 ∨ |x1 - x0| = |y1 - y0|) :
    plotLineCells x0 y0 x1 y1 =
      some ((List.range ((max |x1 - x0| |y1 - y0|).toNat + 1)).map
        (fun (i : Nat) =>
          (⟨x0 + i * Int.sign (x1 - x0), y0 + i * Int.sign (y1 - y0)⟩ : Cell))) := by
  by_cases hsame : x0 = x1 ∧ y0 = y1
  · obtain ⟨rfl, rfl⟩ := hsame
    simp [plotLineCells, plotLineCellsLoop, List.range_succ]
  · obtain ⟨n, hn⟩ : ∃ n : Nat, (n : Int) = max |x1 - x0| |y1 - y0| :=
      ⟨(max |x1 - x0| |y1 - y0|).toNat,
        Int.toNat_of_nonneg (le_trans (abs_nonneg (x1 - x0)) (le_max_left _ _))⟩
    have hA := abs_nonneg (x1 - x0)
    have hB := abs_nonneg (y1 - y0)
    have hsx : (if x0 < x1 then (1 : Int) else -1) = 1 ∨ (if x0 < x1 then (1 : Int) else -1) = -1 := by
      split <;> simp
    have hsy : (if y0 < y1 then (1 : Int) else -1) = 1 ∨ (if y0 < y1 then (1 : Int) else -1) = -1 := by
      split <;> simp
    have hpx : Int.sign (x1 - x0) = if |x1 - x0| = 0 then 0 else (if x0 < x1 then (1 : Int) else -1) := by
      rcases axis_cases x0 x1 with ⟨h1, h2, h3, h4⟩ | ⟨h1, h2, h3, h4⟩ | ⟨h1, h2, h3, h4⟩
      · rw [h2, h3, h4, if_neg (by omega)]
      · rw [h2, h3, if_pos rfl]
      · rw [h2, h3, h4, if_neg (by omega)]
    have hpy : Int.sign (y1 - y0) = if |y1 - y0| = 0 then 0 else (if y0 < y1 then (1 : Int) else -1) := by
      rcases axis_cases y0 y1 with ⟨h1, h2, h3, h4⟩ | ⟨h1, h2, h3, h4⟩ | ⟨h1, h2, h3, h4⟩
      · rw [h2, h3, h4, if_neg (by omega)]
      · rw [h2, h3, if_pos rfl]
      · rw [h2, h3, h4, if_neg (by omega)]
    have hcase : |x1 - x0| = 0 ∨ |y1 - y0| = 0 ∨ |x1 - x0| = |y1 - y0| := by
      rcases h with h | h | h
      · left; subst h; simp
      · right; left; subst h; simp
      · right; right; exact h
    have hmax : max |x1 - x0| |y1 - y0| = |x1 - x0| ∨ max |x1 - x0| |y1 - y0| = |y1 - y0| :=
      max_choice _ _
    have hpos : 0 < n := by
      by_contra hc
      have hn0 : (n : Int) = 0 := by omega
      rw [hn0] at hn
      have h1 : |x1 - x0| ≤ 0 := by rw [hn]; exact le_max_left _ _
      have h2 : |y1 - y0| ≤ 0 := by rw [hn]; exact le_max_right _ _
      have h3 : x1 - x0 = 0 := abs_eq_zero.mp (le_antisymm h1 hA)
      have h4 : y1 - y0 = 0 := abs_eq_zero.mp (le_antisymm h2 hB)
      exact hsame ⟨by omega, by omega⟩
    have hx1 : x1 = x0 + n * Int.sign (x1 - x0) := by
      rcases axis_cases x0 x1 with ⟨h1, h2, h3, h4⟩ | ⟨h1, h2, h3, h4⟩ | ⟨h1, h2, h3, h4⟩
      · rw [h3]
        rw [h2] at hn hcase hmax
        rcases hcase with hc | hc | hc
        · omega
        · rw [hc] at hn hmax
          rcases hmax with hm | hm <;> omega
        · rw [← hc] at hn hmax
          rcases hmax with hm | hm <;> omega
      · rw [h3]; omega
      · rw [h3]
        rw [h2] at hn hcase hmax
        rcases hcase with hc | hc | hc
        · omega
        · rw [hc] at hn hmax
          rcases hmax with hm | hm <;> omega
        · rw [← hc] at hn hmax
          rcases hmax with hm | hm <;> omega
    have hy1 : y1 = y0 + n * Int.sign (y1 - y0) := by
      rcases axis_cases y0 y1 with ⟨h1, h2, h3, h4⟩ | ⟨h1, h2, h3, h4⟩ | ⟨h1, h2, h3, h4⟩
      · rw [h3]
        rw [h2] at hn hcase hmax
        rcases hcase with hc | hc | hc
        · rw [hc] at hn hmax
          rcases hmax with hm | hm <;> omega
        · omega
        · rw [hc] at hn hmax
          rcases hmax with hm | hm <;> omega
      · rw [h3]; omega
      · rw [h3]
        rw [h2] at hn hcase hmax
        rcases hcase with hc | hc | hc
        · rw [hc] at hn hmax
          rcases hmax with hm | hm <;> omega
        · omega
        · rw [hc] at hn hmax
          rcases hmax with hm | hm <;> omega
    have key := straight_aux x0 y0 |x1 - x0| |y1 - y0| (if x0 < x1 then (1 : Int) else -1)
      (if y0 < y1 then (1 : Int) else -1) (Int.sign (x1 - x0)) (Int.sign (y1 - y0)) n hA hB hn
      hcase hpx hpy hsx hsy hpos
    rw [← hx1, ← hy1] at key
    unfold plotLineCells
    simp only
    rw [key, ← hn, Int.toNat_ofNat]

/-- For identical, horizontal, vertical and 45° endpoints, the end point is the
start point moved `max(|x1 - x0|, |y1 - y0|)` times by the two signs. -/
theorem straight_endpoints (x0 y0 x1 y1 : Int)
    (h : x0 = x1 ∨ y0 = y1 ∨ |x1 - x0| = |y1 - y0|) :
    x1 = x0 + ((max |x1 - x0| |y1 - y0|).toNat : Int) * Int.sign (x1 - x0) ∧
    y1 = y0 + ((max |x1 - x0| |y1 - y0|).toNat : Int) * Int.sign (y1 - y0) := by
  rcases axis_cases x0 x1 with ⟨a1, a2, a3, _⟩ | ⟨a1, a2, a3, _⟩ | ⟨a1, a2, a3, _⟩ <;>
  rcases axis_cases y0 y1 with ⟨b1, b2, b3, _⟩ | ⟨b1, b2, b3, _⟩ | ⟨b1, b2, b3, _⟩ <;>
  rw [a2, b2] at h <;> rw [a2, b2, a3, b3] <;> omega

/-- C5: on a well-formed grid, for in-bounds endpoints that are identical,
horizontal, vertical or at 45°, `plotLine` passes to `setPixel` exactly the
cells `(x0 + i * sx, y0 + i * sy)`, `i = 0..max(|x1 - x0|, |y1 - y0|)`, with
`sx`, `sy` the signs of `x1 - x0`, `y1 - y0`; it returns a state that differs
in `pixels` only, reads `c` at those cells and the old value at every other
cell.  `plotLine(x, y, x, y, c)` visits the single cell `(x, y)`, and
`plotLine(0, 0, 3, 3, "#ff0000")` on the transparent 4×4 grid paints exactly
the four diagonal cells. -/
theorem plotLine_straight (s : State) (hwf : WellFormed s) (x0 y0 x1 y1 : Int)
    (h0 : InBounds s x0 y0) (h1 : InBounds s x1 y1)
    (h : x0 = x1 ∨ y0 = y1 ∨ |x1 - x0| = |y1 - y0|) (c : Color) :
    plotLineCells x0 y0 x1 y1 =
      some ((List.range ((max |x1 - x0| |y1 - y0|).toNat + 1)).map
        (fun (i : Nat) =>
          (⟨x0 + i * Int.sign (x1 - x0), y0 + i * Int.sign (y1 - y0)⟩ : Cell))) ∧
    (∃ s', plotLine s x0 y0 x1 y1 c = some s' ∧
      WellFormed s' ∧ s' = { s with pixels := s'.pixels } ∧
      ∀ x y,
        ((∃ i : Nat, i ≤ (max |x1 - x0| |y1 - y0|).toNat ∧
            x = x0 + i * Int.sign (x1 - x0) ∧ y = y0 + i * Int.sign (y1 - y0)) →
          readPixel s'.pixels x y = some c) ∧
        (¬ (∃ i : Nat, i ≤ (max |x1 - x0| |y1 - y0|).toNat ∧
            x = x0 + i * Int.sign (x1 - x0) ∧ y = y0 + i * Int.sign (y1 - y0)) →
          readPixel s'.pixels x y = readPixel s.pixels x y)) ∧
    plotLineCells x0 y0 x0 y0 = some [⟨x0, y0⟩] ∧
    plotLine grid4 0 0 3 3 (some "#ff0000") = some { grid4 with pixels :=
      [[some "#ff0000", none, none, none],
       [none, some "#ff0000", none, none],
       [none, none, some "#ff0000", none],
       [none, none, none, some "#ff0000"]] } := by
  have hcells := plotLineCells_straight x0 y0 x1 y1 h
  refine ⟨hcells, ?_, ?_, by decide⟩
  · obtain ⟨s', hp, hwf', hfr, hrd⟩ := paintCells_total c
      ((List.range ((max |x1 - x0| |y1 - y0|).toNat + 1)).map
        (fun (i : Nat) =>
          (⟨x0 + i * Int.sign (x1 - x0), y0 + i * Int.sign (y1 - y0)⟩ : Cell))) s hwf
    refine ⟨s', ?_, hwf', hfr, ?_⟩
    · rw [plotLine_eq_paintCells, hcells]
      exact hp
    · intro x y
      obtain ⟨hpos, hneg⟩ := hrd x y
      have hmem : (⟨x, y⟩ : Cell) ∈ (List.range ((max |x1 - x0| |y1 - y0|).toNat + 1)).map
          (fun (i : Nat) =>
            (⟨x0 + i * Int.sign (x1 - x0), y0 + i * Int.sign (y1 - y0)⟩ : Cell)) ↔
          ∃ i : Nat, i ≤ (max |x1 - x0| |y1 - y0|).toNat ∧
            x = x0 + i * Int.sign (x1 - x0) ∧ y = y0 + i * Int.sign (y1 - y0) := by
        simp only [List.mem_map, List.mem_range, Cell.mk.injEq]
        constructor
        · rintro ⟨i, hi, e1, e2⟩
          exact ⟨i, by omega, e1.symm, e2.symm⟩
        · rintro ⟨i, hi, e1, e2⟩
          exact ⟨i, by omega, e1.symm, e2.symm⟩
      have hin : (∃ i : Nat, i ≤ (max |x1 - x0| |y1 - y0|).toNat ∧
            x = x0 + i * Int.sign (x1 - x0) ∧ y = y0 + i * Int.sign (y1 - y0)) →
          InBounds s x y := by
        rintro ⟨i, hi, e1, e2⟩
        obtain ⟨p1, p2⟩ := straight_endpoints x0 y0 x1 y1 h
        unfold InBounds at h0 h1 ⊢
        generalize (max |x1 - x0| |y1 - y0|).toNat = n at hi p1 p2
        have hi' : (i : Int) ≤ n := by exact_mod_cast hi
        have hi0 : (0 : Int) ≤ i := by omega
        rcases axis_cases x0 x1 with ⟨_, _, a3, _⟩ | ⟨_, _, a3, _⟩ | ⟨_, _, a3, _⟩ <;>
        rcases axis_cases y0 y1 with ⟨_, _, b3, _⟩ | ⟨_, _, b3, _⟩ | ⟨_, _, b3, _⟩ <;>
        rw [a3] at p1 e1 <;> rw [b3] at p2 e2 <;> omega
      constructor
      · intro hex
        exact hpos ⟨hmem.mpr hex, hin hex⟩
      · intro hnex
        apply hneg
        rintro ⟨hm, _⟩
        exact hnex (hmem.mp hm)
  · have := plotLineCells_straight x0 y0 x0 y0 (Or.inl rfl)
    simpa [List.range_succ] using this

/-- Witness for C5: the anti-diagonal from `(3, 0)` to `(0, 3)` on the 4×4
example grid. -/
theorem plotLine_straight_witness :
    plotLineCells 3 0 0 3 =
      some ((List.range ((max |(0 : Int) - 3| |(3 : Int) - 0|).toNat + 1)).map
        (fun (i : Nat) =>
          (⟨3 + i * Int.sign ((0 : Int) - 3), 0 + i * Int.sign ((3 : Int) - 0)⟩ : Cell))) :=
  (plotLine_straight grid4 (by decide) 3 0 0 3 (by decide) (by decide)
    (Or.inr (Or.inr (by decide))) (some "#ff0000")).1

/-- The loop of `plotLine` after `a` steps in `x` and `b` steps in `y`
(`0 ≤ a ≤ DX`, `0 ≤ b ≤ DY`, `err = (b + 1) * DX - (a + 1) * DY`) reaches the
end point within `(DX - a) + (DY - b) + 1` passes. -/
theorem plotLineCellsLoop_terminates (x0 y0 DX DY sx sy : Int) (hDX : 0 ≤ DX) (hDY : 0 ≤ DY) :
    ∀ (fuel : Nat) (a b : Int), 0 ≤ a → a ≤ DX → 0 ≤ b → b ≤ DY →
      (DX - a) + (DY - b) < fuel →
      ∃ cs, plotLineCellsLoop fuel (x0 + a * sx) (y0 + b * sy) (x0 + DX * sx) (y0 + DY * sy)
        DX sx (-DY) sy ((b + 1) * DX - (a + 1) * DY) = some cs := by
  intro fuel
  induction fuel with
  | zero =>
    intro a b _ ha _ hb hf
    omega
  | succ fuel ih =>
    intro a b ha0 ha hb0 hb hf
    rw [plotLineCellsLoop]
    by_cases hbreak : x0 + a * sx = x0 + DX * sx ∧ y0 + b * sy = y0 + DY * sy
    · rw [if_pos hbreak]
      exact ⟨_, rfl⟩
    · rw [if_neg hbreak]
      have hnot : ¬ (a = DX ∧ b = DY) := by
        rintro ⟨rfl, rfl⟩
        exact hbreak ⟨rfl, rfl⟩
      -- the two tests of the loop body
      have hprogress : ¬ (2 * ((b + 1) * DX - (a + 1) * DY) ≥ -DY) →
          2 * ((b + 1) * DX - (a + 1) * DY) ≤ DX := by
        intro h
        omega
      have hxstop : a = DX → ¬ (2 * ((b + 1) * DX - (a + 1) * DY) ≥ -DY) := by
        intro h
        subst h
        have hb' : b + 1 ≤ DY := by
          have : b ≠ DY := fun h => hnot ⟨rfl, h⟩
          omega
        have := mul_le_mul_of_nonneg_right hb' ha0
        nlinarith
      have hystop : b = DY → ¬ (2 * ((b + 1) * DX - (a + 1) * DY) ≤ DX) := by
        intro h
        subst h
        have ha' : a + 1 ≤ DX := by
          have : a ≠ DX := fun h => hnot ⟨h, rfl⟩
          omega
        have := mul_le_mul_of_nonneg_right ha' hb0
        nlinarith
      unfold plotLineStep
      simp only
      by_cases c1 : 2 * ((b + 1) * DX - (a + 1) * DY) ≥ -DY
      · have ha1 : a + 1 ≤ DX := by
          have : a ≠ DX := fun h => hxstop h c1
          omega
        by_cases c2 : 2 * ((b + 1) * DX - (a + 1) * DY) ≤ DX
        · have hb1 : b + 1 ≤ DY := by
            have : b ≠ DY := fun h => hystop h c2
            omega
          simp only [c1, c2, if_true]
          have e1 : x0 + a * sx + sx = x0 + (a + 1) * sx := by ring
          have e2 : y0 + b * sy + sy = y0 + (b + 1) * sy := by ring
          have e3 : (b + 1) * DX - (a + 1) * DY + -DY + DX =
              (b + 1 + 1) * DX - (a + 1 + 1) * DY := by ring
          rw [e1, e2, e3]
          obtain ⟨cs, hcs⟩ := ih (a + 1) (b + 1) (by omega) ha1 (by omega) hb1 (by omega)
          rw [hcs]
          exact ⟨_, rfl⟩
        · simp only [c1, c2, if_true, if_false]
          have e1 : x0 + a * sx + sx = x0 + (a + 1) * sx := by ring
          have e3 : (b + 1) * DX - (a + 1) * DY + -DY = (b + 1) * DX - (a + 1 + 1) * DY := by ring
          rw [e1, e3]
          obtain ⟨cs, hcs⟩ := ih (a + 1) b (by omega) ha1 hb0 hb (by omega)
          rw [hcs]
          exact ⟨_, rfl⟩
      · have c2 := hprogress c1
        have hb1 : b + 1 ≤ DY := by
          have : b ≠ DY := fun h => hystop h c2
          omega
        simp only [c1, c2, if_true, if_false]
        have e2 : y0 + b * sy + sy = y0 + (b + 1) * sy := by ring
        have e3 : (b + 1) * DX - (a + 1) * DY + DX = (b + 1 + 1) * DX - (a + 1) * DY := by ring
        rw [e2, e3]
        obtain ⟨cs, hcs⟩ := ih a (b + 1) ha0 ha (by omega) hb1 (by omega)
        rw [hcs]
        exact ⟨_, rfl⟩

/-- The `while (true)` loop of `plotLine` ends for every pair of endpoints: the
trace exists. -/
theorem plotLineCells_terminates (x0 y0 x1 y1 : Int) :
    ∃ cs, plotLineCells x0 y0 x1 y1 = some cs := by
  unfold plotLineCells
  simp only
  have hA := abs_nonneg (x1 - x0)
  have hB := abs_nonneg (y1 - y0)
  have key := plotLineCellsLoop_terminates x0 y0 |x1 - x0| |y1 - y0|
    (if x0 < x1 then (1 : Int) else -1) (if y0 < y1 then (1 : Int) else -1) hA hB
    ((|x1 - x0| - -|y1 - y0|).toNat + 1) 0 0 le_rfl hA le_rfl hB (by omega)
  have ex : x0 + |x1 - x0| * (if x0 < x1 then (1 : Int) else -1) = x1 := by
    rcases axis_cases x0 x1 with ⟨_, a2, _, a4⟩ | ⟨_, a2, _, a4⟩ | ⟨_, a2, _, a4⟩ <;>
    rw [a2, a4] <;> omega
  have ey : y0 + |y1 - y0| * (if y0 < y1 then (1 : Int) else -1) = y1 := by
    rcases axis_cases y0 y1 with ⟨_, a2, _, a4⟩ | ⟨_, a2, _, a4⟩ | ⟨_, a2, _, a4⟩ <;>
    rw [a2, a4] <;> omega
  rw [ex, ey] at key
  simp only [zero_mul, add_zero, zero_add, one_mul] at key
  have e : |x1 - x0| - |y1 - y0| = |x1 - x0| + -|y1 - y0| := by ring
  rw [e] at key
  exact key

theorem colorCount_le (s : State) (color : Color) : colorCount s color ≤ s.gridSize * s.gridSize := by
  unfold colorCount
  calc _ ≤ (Finset.range s.gridSize ×ˢ Finset.range s.gridSize).card := Finset.card_filter_le _ _
    _ = s.gridSize * s.gridSize := by simp

/-- Overwriting an in-bounds cell that holds `t` with another colour lowers the
number of cells holding `t`. -/
theorem colorCount_write {s : State} {t r : Color} {x y : Int} {p : Pixels}
    (hin : InBounds s x y) (hrd : readPixel s.pixels x y = some t) (hne : t ≠ r)
    (hw : writePixel s.pixels x y r = some p) :
    colorCount { s with pixels := p } t + 1 ≤ colorCount s t := by
  unfold colorCount
  apply Nat.succ_le_of_lt
  apply Finset.card_lt_card
  rw [Finset.ssubset_iff_of_subset]
  · refine ⟨(x.toNat, y.toNat), ?_, ?_⟩
    · unfold InBounds at hin
      simp only [Finset.mem_filter, Finset.mem_product, Finset.mem_range]
      refine ⟨⟨by omega, by omega⟩, ?_⟩
      rw [Int.toNat_of_nonneg hin.1, Int.toNat_of_nonneg hin.2.2.1]
      exact hrd
    · unfold InBounds at hin
      simp only [Finset.mem_filter, Finset.mem_product, Finset.mem_range, not_and]
      intro _
      rw [Int.toNat_of_nonneg hin.1, Int.toNat_of_nonneg hin.2.2.1,
        readPixel_writePixel_same hw]
      intro h
      exact hne (Option.some.inj h).symm
  · intro q hq
    simp only [Finset.mem_filter, Finset.mem_product, Finset.mem_range] at hq ⊢
    refine ⟨hq.1, ?_⟩
    by_cases hqc : (q.1 : Int) = x ∧ (q.2 : Int) = y
    · have h2 := hq.2
      rw [hqc.1, hqc.2, readPixel_writePixel_same hw] at h2
      exact absurd (Option.some.inj h2).symm hne
    · have : (q.1 : Int) ≠ x ∨ (q.2 : Int) ≠ y := by
        by_contra hcon
        push_neg at hcon
        exact hqc hcon
      rw [← readPixel_writePixel_other hw this]
      exact hq.2

theorem Connected.inBounds {s : State} {t : Color} {sX sY x y : Int}
    (h : Connected s t sX sY x y) : InBounds s x y := by
  cases h with
  | start hin _ => exact hin
  | step _ _ hin _ => exact hin

theorem Connected.color {s : State} {t : Color} {sX sY x y : Int}
    (h : Connected s t sX sY x y) : readPixel s.pixels x y = some t := by
  cases h with
  | start _ hc => exact hc
  | step _ _ _ hc => exact hc

/-- Popping a cell that is out of bounds or does not hold the target colour
keeps the invariant. -/
theorem FloodInv.pop {s0 : State} {t r : Color} {sX sY : Int} {s : State} {c : Cell}
    {stack : List Cell} (hsin : InBounds s0 sX sY) (hsc : readPixel s0.pixels sX sY = some t)
    (inv : FloodInv s0 t r sX sY s (c :: stack))
    (hskip : ¬ InBounds s0 c.x c.y ∨ readPixel s.pixels c.x c.y ≠ some t) :
    FloodInv s0 t r sX sY s stack := by
  -- a valid target-coloured cell that is skipped is already filled
  have hfilled : ∀ x y, (⟨x, y⟩ : Cell) = c → InBounds s0 x y →
      readPixel s0.pixels x y = some t → readPixel s.pixels x y = some r := by
    intro x y hc hin h0
    subst hc
    rcases hskip with h | h
    · exact absurd hin h
    · rcases inv.same_or_filled x y with h' | h'
      · rw [h', h0] at h
        exact absurd rfl h
      · exact h'.1
  refine ⟨inv.wf, inv.frame, inv.same_or_filled, ?_, ?_, ?_⟩
  · intro c' hc'
    exact inv.stack_connected c' (List.mem_cons_of_mem _ hc')
  · intro x y hconn hr x' y' hadj hin h0
    rcases inv.closed x y hconn hr x' y' hadj hin h0 with h | h
    · exact Or.inl h
    · rcases List.mem_cons.mp h with h | h
      · exact Or.inl (hfilled x' y' h hin h0)
      · exact Or.inr h
  · rcases inv.start with h | h
    · exact Or.inl h
    · rcases List.mem_cons.mp h with h | h
      · exact Or.inl (hfilled sX sY h hsin hsc)
      · exact Or.inr h

/-- Filling the popped cell and pushing its four neighbours keeps the invariant. -/
theorem FloodInv.fill {s0 : State} {t r : Color} {sX sY : Int} {s : State} {c : Cell}
    {stack : List Cell} {p : Pixels} (hne : t ≠ r)
    (inv : FloodInv s0 t r sX sY s (c :: stack))
    (hin : InBounds s0 c.x c.y) (hrd : readPixel s.pixels c.x c.y = some t)
    (hw : writePixel s.pixels c.x c.y r = some p) :
    FloodInv s0 t r sX sY { s with pixels := p }
      (⟨c.x, c.y - 1⟩ :: ⟨c.x, c.y + 1⟩ :: ⟨c.x - 1, c.y⟩ :: ⟨c.x + 1, c.y⟩ :: stack) := by
  have hc0 : readPixel s0.pixels c.x c.y = some t := by
    rcases inv.same_or_filled c.x c.y with h | h
    · rw [← h]
      exact hrd
    · rw [h.1] at hrd
      exact absurd (Option.some.inj hrd).symm hne
  have hcconn : Connected s0 t sX sY c.x c.y :=
    inv.stack_connected c (List.mem_cons_self _ _) hin hc0
  have hsame : ∀ x y, (x ≠ c.x ∨ y ≠ c.y) → readPixel p x y = readPixel s.pixels x y :=
    fun x y h => readPixel_writePixel_other hw h
  have hnew : readPixel p c.x c.y = some r := readPixel_writePixel_same hw
  -- a cell filled before the write is still filled after it
  have hkeep : ∀ x y, readPixel s.pixels x y = some r → readPixel p x y = some r := by
    intro x y h
    by_cases hxy : x = c.x ∧ y = c.y
    · rw [hxy.1, hxy.2]
      exact hnew
    · rw [hsame x y (by by_contra hcon; push_neg at hcon; exact hxy hcon)]
      exact h
  refine ⟨writePixel_isGrid hw inv.wf, ?_, ?_, ?_, ?_, ?_⟩
  · have := inv.frame
    rw [this]
  · intro x y
    by_cases hxy : x = c.x ∧ y = c.y
    · right
      rw [hxy.1, hxy.2]
      exact ⟨hnew, hcconn⟩
    · have e : readPixel p x y = readPixel s.pixels x y :=
        hsame x y (by by_contra hcon; push_neg at hcon; exact hxy hcon)
      show readPixel p x y = _ ∨ (readPixel p x y = _ ∧ _)
      rw [e]
      exact inv.same_or_filled x y
  · intro c' hc' hin' h0'
    simp only [List.mem_cons] at hc'
    have hstep : ∀ x' y', Adjacent c.x c.y x' y' → c' = ⟨x', y'⟩ →
        Connected s0 t sX sY c'.x c'.y := by
      intro x' y' hadj he
      subst he
      exact Connected.step hcconn hadj hin' h0'
    rcases hc' with h | h | h | h | h
    · exact hstep _ _ (Or.inr (Or.inr (Or.inr ⟨rfl, rfl⟩))) h
    · exact hstep _ _ (Or.inr (Or.inr (Or.inl ⟨rfl, rfl⟩))) h
    · exact hstep _ _ (Or.inr (Or.inl ⟨rfl, rfl⟩)) h
    · exact hstep _ _ (Or.inl ⟨rfl, rfl⟩) h
    · exact inv.stack_connected c' (List.mem_cons_of_mem _ h) hin' h0'
  · intro x y hconn hr x' y' hadj hin' h0'
    show readPixel p x' y' = some r ∨ _
    by_cases hxy : x = c.x ∧ y = c.y
    · right
      obtain ⟨rfl, rfl⟩ := hxy
      simp only [List.mem_cons, Cell.mk.injEq]
      rcases hadj with ⟨h1, h2⟩ | ⟨h1, h2⟩ | ⟨h1, h2⟩ | ⟨h1, h2⟩
      · exact Or.inr (Or.inr (Or.inr (Or.inl ⟨h1, h2⟩)))
      · exact Or.inr (Or.inr (Or.inl ⟨h1, h2⟩))
      · exact Or.inr (Or.inl ⟨h1, h2⟩)
      · exact Or.inl ⟨h1, h2⟩
    · have e : readPixel p x y = readPixel s.pixels x y :=
        hsame x y (by by_contra hcon; push_neg at hcon; exact hxy hcon)
      have hr' : readPixel s.pixels x y = some r := by
        rw [← e]
        exact hr
      rcases inv.closed x y hconn hr' x' y' hadj hin' h0' with h | h
      · exact Or.inl (hkeep x' y' h)
      · rcases List.mem_cons.mp h with h | h
        · left
          have hx : x' = c.x := by rw [← h]
          have hy : y' = c.y := by rw [← h]
          rw [hx, hy]
          exact hnew
        · right
          exact List.mem_cons_of_mem _ (List.mem_cons_of_mem _
            (List.mem_cons_of_mem _ (List.mem_cons_of_mem _ h)))
  · show readPixel p sX sY = some r ∨ _
    rcases inv.start with h | h
    · exact Or.inl (hkeep sX sY h)
    · rcases List.mem_cons.mp h with h | h
      · left
        have hx : sX = c.x := by rw [← h]
        have hy : sY = c.y := by rw [← h]
        rw [hx, hy]
        exact hnew
      · right
        exact List.mem_cons_of_mem _ (List.mem_cons_of_mem _
          (List.mem_cons_of_mem _ (List.mem_cons_of_mem _ h)))

/-- The work-list loop of `floodFill` ends within `4 * (cells holding the target
colour) + (length of the work list)` passes and re-establishes the invariant
with an empty work list. -/
theorem floodFillLoop_spec {s0 : State} {t r : Color} {sX sY : Int} (hne : t ≠ r)
    (hsin : InBounds s0 sX sY) (hsc : readPixel s0.pixels sX sY = some t) :
    ∀ (fuel : Nat) (s : State) (stack : List Cell), FloodInv s0 t r sX sY s stack →
      4 * colorCount s t + stack.length ≤ fuel →
      ∃ s', floodFillLoop fuel s t r stack = some s' ∧ FloodInv s0 t r sX sY s' [] := by
  intro fuel
  induction fuel with
  | zero =>
    intro s stack inv hf
    cases stack with
    | nil => exact ⟨s, by rw [floodFillLoop], inv⟩
    | cons c rest =>
      simp only [List.length_cons] at hf
      omega
  | succ fuel ih =>
    intro s stack inv hf
    cases stack with
    | nil => exact ⟨s, by rw [floodFillLoop], inv⟩
    | cons c rest =>
      simp only [List.length_cons] at hf
      have hgs : s.gridSize = s0.gridSize := by
        have := inv.frame
        rw [this]
      rw [floodFillLoop]
      by_cases hout : c.x < 0 ∨ c.y < 0 ∨ c.x ≥ s.gridSize ∨ c.y ≥ s.gridSize
      · rw [if_pos hout]
        apply ih s rest (inv.pop hsin hsc (Or.inl ?_)) (by omega)
        unfold InBounds
        rw [← hgs]
        omega
      · rw [if_neg hout]
        have hin : InBounds s c.x c.y := by
          unfold InBounds
          omega
        have hin0 : InBounds s0 c.x c.y := by
          unfold InBounds at hin ⊢
          rw [← hgs]
          exact hin
        obtain ⟨v, hv⟩ := readPixel_eq_some_of_isGrid inv.wf hin.1 hin.2.1 hin.2.2.1 hin.2.2.2
        rw [hv]
        simp only
        by_cases hvt : v = t
        · subst hvt
          rw [if_neg (by simp)]
          obtain ⟨p, hp⟩ :=
            writePixel_eq_some_of_isGrid inv.wf hin.1 hin.2.1 hin.2.2.1 hin.2.2.2 r
          rw [hp]
          simp only
          have hcount := colorCount_write hin hv hne hp
          apply ih _ _ (inv.fill hne hin0 hv hp)
          simp only [List.length_cons]
          omega
        · rw [if_pos hvt]
          apply ih s rest (inv.pop hsin hsc (Or.inr ?_)) (by omega)
          rw [hv]
          intro h
          exact hvt (Option.some.inj h)

/-- With a replacement colour different from the colour of the in-bounds start
cell, `floodFill` returns and its final state satisfies the loop invariant with
an empty work list. -/
theorem floodFill_run (s : State) (hwf : WellFormed s) (startX startY : Int)
    (hin : InBounds s startX startY) (C : Color)
    (hC : readPixel s.pixels startX startY = some C) (R : Color) (hRC : C ≠ R) :
    ∃ s', floodFill s startX startY R = some s' ∧ FloodInv s C R startX startY s' [] := by
  have inv0 : FloodInv s C R startX startY s [⟨startX, startY⟩] := by
    refine ⟨hwf, rfl, fun _ _ => Or.inl rfl, ?_, ?_, Or.inr (List.mem_singleton.mpr rfl)⟩
    · intro c hc hcin hcc
      rw [List.mem_singleton.mp hc]
      exact Connected.start hin hC
    · intro x y hconn hr
      rw [hconn.color] at hr
      exact absurd (Option.some.inj hr) hRC
  have hfuel : 4 * colorCount s C + [(⟨startX, startY⟩ : Cell)].length ≤
      4 * s.gridSize * s.gridSize + 1 := by
    have := colorCount_le s C
    simp only [List.length_singleton]
    rw [Nat.mul_assoc]
    omega
  obtain ⟨s', hrun, inv⟩ := floodFillLoop_spec hRC hin hC _ s _ inv0 hfuel
  refine ⟨s', ?_, inv⟩
  unfold floodFill
  rw [hC]
  simp only [if_neg hRC]
  exact hrun

/-- C1: on a well-formed grid, for an in-bounds start cell of colour `C` and a
replacement colour `R`, `floodFill(startX, startY, R)` returns (its work-list
loop ends) a state that differs from the old one in `pixels` only, in which
every cell connected to the start cell by 4-neighbour steps through cells of
colour exactly `C` holds `R` and every other cell reads what it read before;
so for `R ≠ C` the cells whose value changed are exactly the connected ones,
and for `R = C` the state is unchanged. -/
theorem floodFill_spec (s : State) (hwf : WellFormed s) (startX startY : Int)
    (hin : InBounds s startX startY) (C : Color)
    (hC : readPixel s.pixels startX startY = some C) (R : Color) :
    ∃ s', floodFill s startX startY R = some s' ∧
      WellFormed s' ∧ s' = { s with pixels := s'.pixels } ∧
      (∀ x y, Connected s C startX startY x y → readPixel s'.pixels x y = some R) ∧
      (∀ x y, ¬ Connected s C startX startY x y →
        readPixel s'.pixels x y = readPixel s.pixels x y) ∧
      (R ≠ C → ∀ x y,
        readPixel s'.pixels x y ≠ readPixel s.pixels x y ↔ Connected s C startX startY x y) ∧
      (R = C → s' = s) := by
  by_cases hRC : C = R
  · subst hRC
    refine ⟨s, ?_, hwf, rfl, ?_, fun _ _ _ => rfl, fun h => absurd rfl h, fun _ => rfl⟩
    · unfold floodFill
      rw [hC]
      simp
    · intro x y hconn
      exact hconn.color
  · obtain ⟨s', hrun, inv⟩ := floodFill_run s hwf startX startY hin C hC R hRC
    have hfilled : ∀ x y, Connected s C startX startY x y → readPixel s'.pixels x y = some R := by
      intro x y hconn
      induction hconn with
      | start _ _ =>
        rcases inv.start with h | h
        · exact h
        · cases h
      | step hprev hadj hin' hc' ih =>
        rcases inv.closed _ _ hprev ih _ _ hadj hin' hc' with h | h
        · exact h
        · cases h
    have hother : ∀ x y, ¬ Connected s C startX startY x y →
        readPixel s'.pixels x y = readPixel s.pixels x y := by
      intro x y hnot
      rcases inv.same_or_filled x y with h | h
      · exact h
      · exact absurd h.2 hnot
    refine ⟨s', hrun, inv.wf, inv.frame, hfilled, hother, ?_, fun h => absurd h.symm hRC⟩
    · intro _ x y
      constructor
      · intro hchg
        by_contra hnot
        exact hchg (hother x y hnot)
      · intro hconn
        rw [hfilled x y hconn, hconn.color]
        intro h
        exact hRC (Option.some.inj h).symm

/-- Witness for C1: filling the transparent 4×4 example grid from `(1, 1)`. -/
theorem floodFill_spec_witness :
    ∃ s', floodFill grid4 1 1 (some "#ff0000") = some s' ∧ WellFormed s' ∧
      readPixel s'.pixels 1 1 = some (some "#ff0000") :=
  (fun ⟨s', h1, h2, _, h4, _⟩ =>
      ⟨s', h1, h2, h4 1 1 (Connected.start (by decide) (by decide))⟩)
    (floodFill_spec grid4 (by decide) 1 1 (by decide) none (by decide) (some "#ff0000"))

/-! ## Frame properties: the tools change `pixels` only -/

theorem setPixel_frame {s s' : State} {x y : Int} {c : Color} (h : setPixel s x y c = some s') :
    s' = { s with pixels := s'.pixels } := by
  unfold setPixel at h
  split at h
  · cases h
    rfl
  · split at h
    · cases h
    · cases h
      rfl

theorem paintCells_frame (c : Color) (cs : List Cell) :
    ∀ s s' : State, paintCells s cs c = some s' → s' = { s with pixels := s'.pixels } := by
  induction cs with
  | nil =>
    intro s s' h
    cases h
    rfl
  | cons a cs ih =>
    intro s s' h
    rw [paintCells] at h
    split at h
    · cases h
    · rename_i s1 h1
      have e1 := setPixel_frame h1
      have e2 := ih s1 s' h
      rw [e2, e1]

theorem plotLine_frame {s s' : State} {x0 y0 x1 y1 : Int} {c : Color}
    (h : plotLine s x0 y0 x1 y1 c = some s') : s' = { s with pixels := s'.pixels } := by
  rw [plotLine_eq_paintCells] at h
  cases hcs : plotLineCells x0 y0 x1 y1 with
  | none =>
    rw [hcs] at h
    cases h
  | some cs =>
    rw [hcs] at h
    exact paintCells_frame c cs s s' h

theorem floodFillLoop_frame (t r : Color) :
    ∀ (fuel : Nat) (s : State) (stack : List Cell) (s' : State),
      floodFillLoop fuel s t r stack = some s' → s' = { s with pixels := s'.pixels } := by
  intro fuel
  induction fuel with
  | zero =>
    intro s stack s' h
    cases stack with
    | nil =>
      rw [floodFillLoop] at h
      cases h
      rfl
    | cons c rest =>
      rw [floodFillLoop] at h
      cases h
  | succ fuel ih =>
    intro s stack s' h
    cases stack with
    | nil =>
      rw [floodFillLoop] at h
      cases h
      rfl
    | cons c rest =>
      rw [floodFillLoop] at h
      split at h
      · exact ih _ _ _ h
      · split at h
        · cases h
        · split at h
          · exact ih _ _ _ h
          · split at h
            · cases h
            · have := ih _ _ _ h
              rw [this]

theorem floodFill_frame {s s' : State} {x y : Int} {r : Color}
    (h : floodFill s x y r = some s') : s' = { s with pixels := s'.pixels } := by
  unfold floodFill at h
  split at h
  · cases h
  · split at h
    · cases h
      rfl
    · exact floodFillLoop_frame _ _ _ _ _ _ h

theorem drawRectRow_frame (minX maxX minY maxY y : Int) (fill : Bool) (xs : List Int) :
    ∀ s s' : State,
      xs.foldlM
          (fun st x =>
            let onEdge : Bool := x = minX ∨ x = maxX ∨ y = minY ∨ y = maxY
            if fill || onEdge then setPixel st x y (some st.activeColor) else some st) s = some s' →
        s' = { s with pixels := s'.pixels } := by
  induction xs with
  | nil =>
    intro s s' h
    cases h
    rfl
  | cons x xs ih =>
    intro s s' h
    simp only [List.foldlM_cons, Option.bind_eq_bind, Option.bind_eq_some] at h
    obtain ⟨s1, h1, h2⟩ := h
    have e2 := ih s1 s' h2
    split at h1
    · have e1 := setPixel_frame h1
      rw [e2, e1]
    · cases h1
      exact e2

theorem drawRect_frame {s s' : State} {a b : Cell} {fill : Bool}
    (h : drawRect s a b fill = some s') : s' = { s with pixels := s'.pixels } := by
  unfold drawRect at h
  simp only at h
  generalize intRange (min a.y b.y) (max a.y b.y) = ys at h
  induction ys generalizing s with
  | nil =>
    cases h
    rfl
  | cons y ys ih =>
    simp only [List.foldlM_cons, Option.bind_eq_bind, Option.bind_eq_some] at h
    obtain ⟨s1, h1, h2⟩ := h
    have e1 := drawRectRow_frame _ _ _ _ _ _ _ _ _ h1
    have e2 := ih h2
    rw [e2, e1]

/-! ## Resize -/

theorem createPixelGrid_isGrid (n : Nat) : IsGrid (createPixelGrid n) n := by
  unfold IsGrid createPixelGrid
  refine ⟨List.length_replicate _ _, ?_⟩
  intro row hrow
  rw [List.eq_of_mem_replicate hrow, List.length_replicate]

theorem readPixel_createPixelGrid {n : Nat} {x y : Int} (hx0 : 0 ≤ x) (hx : x < n) (hy0 : 0 ≤ y)
    (hy : y < n) : readPixel (createPixelGrid n) x y = some TRANSPARENT := by
  unfold readPixel createPixelGrid
  rw [if_neg (by omega)]
  have h1 : y.toNat < n := by omega
  have h2 : x.toNat < n := by omega
  simp [List.getElem?_replicate, h1, h2]

/-- The inner loop of `resizeGrid` over any list of columns inside both grids. -/
theorem resizeCopyRow_fold (src : Pixels) (n k y : Nat) (hsrc : IsGrid src n) (hyn : y < n)
    (hyk : y < k) (xs : List Nat) (hxs : ∀ x ∈ xs, x < n ∧ x < k) :
    ∀ next : Pixels, IsGrid next k →
      ∃ p, xs.foldlM (fun (acc : Pixels) (x : Nat) => resizeCopyCell src x y acc) next = some p ∧
        IsGrid p k ∧
        ∀ x' y' : Int,
          ((y' = y ∧ ∃ x ∈ xs, x' = (x : Int)) → readPixel p x' y' = readPixel src x' y') ∧
          (¬ (y' = y ∧ ∃ x ∈ xs, x' = (x : Int)) → readPixel p x' y' = readPixel next x' y') := by
  induction xs with
  | nil =>
    intro next hnext
    refine ⟨next, rfl, hnext, fun x' y' => ⟨?_, fun _ => rfl⟩⟩
    rintro ⟨_, x, hx, _⟩
    cases hx
  | cons x xs ih =>
    intro next hnext
    obtain ⟨hxn, hxk⟩ := hxs x (List.mem_cons_self _ _)
    obtain ⟨v, hv⟩ := readPixel_eq_some_of_isGrid hsrc (x := (x : Int)) (y := (y : Int))
      (by omega) (by omega) (by omega) (by omega)
    obtain ⟨q, hq⟩ := writePixel_eq_some_of_isGrid hnext (x := (x : Int)) (y := (y : Int))
      (by omega) (by omega) (by omega) (by omega) v
    obtain ⟨p, hp, hgrid, hrd⟩ :=
      ih (fun a ha => hxs a (List.mem_cons_of_mem _ ha)) q (writePixel_isGrid hq hnext)
    refine ⟨p, ?_, hgrid, ?_⟩
    · simp only [List.foldlM_cons, resizeCopyCell, hv, hq, Option.bind_eq_bind, Option.some_bind]
      exact hp
    · intro x' y'
      obtain ⟨hpos, hneg⟩ := hrd x' y'
      constructor
      · rintro ⟨hy, a, ha, hxa⟩
        by_cases hin : (y' = y ∧ ∃ x ∈ xs, x' = (x : Int))
        · exact hpos hin
        · rw [hneg hin]
          have hax : a = x := by
            rcases List.mem_cons.mp ha with h | h
            · exact h
            · exact absurd ⟨hy, a, h, hxa⟩ hin
          subst hax
          rw [hy, hxa, readPixel_writePixel_same hq, hv]
      · intro hnot
        have hin : ¬ (y' = y ∧ ∃ x ∈ xs, x' = (x : Int)) := by
          rintro ⟨hy, a, ha, hxa⟩
          exact hnot ⟨hy, a, List.mem_cons_of_mem _ ha, hxa⟩
        rw [hneg hin]
        apply readPixel_writePixel_other hq
        by_contra hcon
        push_neg at hcon
        exact hnot ⟨hcon.2, x, List.mem_cons_self _ _, hcon.1⟩

/-- The outer loop of `resizeGrid` over any list of rows inside both grids. -/
theorem resizeCopy_fold (src : Pixels) (n k m : Nat) (hsrc : IsGrid src n) (hmn : m ≤ n)
    (hmk : m ≤ k) (ys : List Nat) (hys : ∀ y ∈ ys, y < m) :
    ∀ next : Pixels, IsGrid next k →
      ∃ p, ys.foldlM (fun (acc : Pixels) (y : Nat) => resizeCopyRow src m y acc) next = some p ∧
        IsGrid p k ∧
        ∀ x' y' : Int,
          (((∃ y ∈ ys, y' = (y : Int)) ∧ 0 ≤ x' ∧ x' < m) →
            readPixel p x' y' = readPixel src x' y') ∧
          (¬ ((∃ y ∈ ys, y' = (y : Int)) ∧ 0 ≤ x' ∧ x' < m) →
            readPixel p x' y' = readPixel next x' y') := by
  induction ys with
  | nil =>
    intro next hnext
    refine ⟨next, rfl, hnext, fun x' y' => ⟨?_, fun _ => rfl⟩⟩
    rintro ⟨⟨y, hy, _⟩, _⟩
    cases hy
  | cons y ys ih =>
    intro next hnext
    have hym := hys y (List.mem_cons_self _ _)
    obtain ⟨q, hq, hqgrid, hqrd⟩ := resizeCopyRow_fold src n k y hsrc (by omega) (by omega)
      (List.range m) (fun x hx => by rw [List.mem_range] at hx; omega) next hnext
    obtain ⟨p, hp, hgrid, hrd⟩ := ih (fun a ha => hys a (List.mem_cons_of_mem _ ha)) q hqgrid
    have hcols : ∀ x' : Int, (∃ x ∈ List.range m, x' = (x : Int)) ↔ (0 ≤ x' ∧ x' < m) := by
      intro x'
      constructor
      · rintro ⟨x, hx, rfl⟩
        rw [List.mem_range] at hx
        omega
      · intro h
        exact ⟨x'.toNat, by rw [List.mem_range]; omega, by omega⟩
    refine ⟨p, ?_, hgrid, ?_⟩
    · have : resizeCopyRow src m y next = some q := hq
      simp only [List.foldlM_cons, this, Option.bind_eq_bind, Option.some_bind]
      exact hp
    · intro x' y'
      obtain ⟨hpos, hneg⟩ := hrd x' y'
      obtain ⟨hqpos, hqneg⟩ := hqrd x' y'
      rw [hcols] at hqpos hqneg
      constructor
      · rintro ⟨⟨a, ha, hya⟩, hx⟩
        by_cases hin : ((∃ y ∈ ys, y' = (y : Int)) ∧ 0 ≤ x' ∧ x' < m)
        · exact hpos hin
        · rw [hneg hin]
          have hay : a = y := by
            rcases List.mem_cons.mp ha with h | h
            · exact h
            · exact absurd ⟨⟨a, h, hya⟩, hx⟩ hin
          subst hay
          exact hqpos ⟨hya, hx⟩
      · intro hnot
        have hin : ¬ ((∃ y ∈ ys, y' = (y : Int)) ∧ 0 ≤ x' ∧ x' < m) := by
          rintro ⟨⟨a, ha, hya⟩, hx⟩
          exact hnot ⟨⟨a, List.mem_cons_of_mem _ ha, hya⟩, hx⟩
        rw [hneg hin]
        apply hqneg
        rintro ⟨hy, hx⟩
        exact hnot ⟨⟨y, List.mem_cons_self _ _, hy⟩, hx⟩

/-- On a well-formed grid `resizeGrid(newSize)` returns: it takes a snapshot,
sets `gridSize`, and installs a well-formed grid that holds the old cells in the
overlap `x, y < min(newSize, gridSize)` and `TRANSPARENT` around it. -/
theorem resizeGrid_total (s : State) (hwf : WellFormed s) (newSize : Nat) :
    ∃ s', resizeGrid s newSize = some s' ∧ WellFormed s' ∧
      s' = { pushHistorySnapshot s with gridSize := newSize, pixels := s'.pixels } ∧
      ∀ x y : Int, InBounds s' x y →
        ((x < min newSize s.gridSize ∧ y < min newSize s.gridSize) →
          readPixel s'.pixels x y = readPixel s.pixels x y) ∧
        (¬ (x < min newSize s.gridSize ∧ y < min newSize s.gridSize) →
          readPixel s'.pixels x y = some TRANSPARENT) := by
  obtain ⟨p, hp, hgrid, hrd⟩ := resizeCopy_fold s.pixels s.gridSize newSize
    (min newSize s.gridSize) hwf (Nat.min_le_right _ _) (Nat.min_le_left _ _)
    (List.range (min newSize s.gridSize)) (fun y hy => List.mem_range.mp hy)
    (createPixelGrid newSize) (createPixelGrid_isGrid newSize)
  refine ⟨{ pushHistorySnapshot s with gridSize := newSize, pixels := p }, ?_, hgrid, rfl, ?_⟩
  · unfold resizeGrid
    simp only [pushHistorySnapshot_pixels, pushHistorySnapshot_gridSize]
    rw [hp]
  · intro x y hin
    unfold InBounds at hin
    simp only at hin
    obtain ⟨hpos, hneg⟩ := hrd x y
    have hrows : (∃ a ∈ List.range (min newSize s.gridSize), y = (a : Int)) ↔
        y < min newSize s.gridSize := by
      constructor
      · rintro ⟨a, ha, rfl⟩
        rw [List.mem_range] at ha
        exact_mod_cast ha
      · intro h
        refine ⟨y.toNat, ?_, by omega⟩
        rw [List.mem_range]
        omega
    constructor
    · rintro ⟨hx, hy⟩
      exact hpos ⟨hrows.mpr hy, hin.1, by exact_mod_cast hx⟩
    · intro hnot
      show readPixel p x y = _
      rw [hneg, readPixel_createPixelGrid hin.1 hin.2.1 hin.2.2.1 hin.2.2.2]
      rintro ⟨hy, _, hx⟩
      exact hnot ⟨by exact_mod_cast hx, hrows.mp hy⟩

/-! ## Editor session -/

theorem getCellFromPointer_eq_some {s : State} {x y : Int} {cell : Cell}
    (h : getCellFromPointer s x y = some cell) : cell = ⟨x, y⟩ ∧ InBounds s x y := by
  unfold getCellFromPointer at h
  split at h
  · cases h
  · cases h
    refine ⟨rfl, ?_⟩
    unfold InBounds
    omega

theorem pushHistorySnapshot_wellFormed {s : State} (h : WellFormed s) :
    WellFormed (pushHistorySnapshot s) := h

theorem floodFill_total {s : State} (hwf : WellFormed s) {x y : Int} (hin : InBounds s x y)
    (r : Color) : ∃ s', floodFill s x y r = some s' ∧ WellFormed s' := by
  obtain ⟨v, hv⟩ := readPixel_eq_some_of_isGrid hwf hin.1 hin.2.1 hin.2.2.1 hin.2.2.2
  by_cases hvr : v = r
  · refine ⟨s, ?_, hwf⟩
    unfold floodFill
    rw [hv]
    simp [hvr]
  · obtain ⟨s', h1, inv⟩ := floodFill_run s hwf x y hin v hv r hvr
    exact ⟨s', h1, inv.wf⟩

theorem plotLine_total {s : State} (hwf : WellFormed s) (x0 y0 x1 y1 : Int) (c : Color) :
    ∃ s', plotLine s x0 y0 x1 y1 c = some s' ∧ WellFormed s' := by
  obtain ⟨cs, hcs⟩ := plotLineCells_terminates x0 y0 x1 y1
  obtain ⟨s', h1, h2, _⟩ := paintCells_total c cs s hwf
  refine ⟨s', ?_, h2⟩
  rw [plotLine_eq_paintCells, hcs]
  exact h1

theorem drawRect_total {s : State} (hwf : WellFormed s) (a b : Cell) (fill : Bool) :
    ∃ s', drawRect s a b fill = some s' ∧ WellFormed s' := by
  obtain ⟨s', h1, h2, _⟩ := drawRect_fold (min a.x b.x) (max a.x b.x) (min a.y b.y) (max a.y b.y)
    fill (intRange (min a.y b.y) (max a.y b.y)) s hwf
  exact ⟨s', h1, h2⟩

/-- An event that starts a new edit leaves the undo stack as `pushHistorySnapshot`
made it, the redo stack empty and, unless it is a resize, `gridSize` as it was. -/
theorem startsEdit_effect {s s' : State} {e : Event} (hedit : StartsEdit s e)
    (h : handleEvent s e = some s') :
    s'.undoStack = (pushHistorySnapshot s).undoStack ∧ s'.redoStack = [] ∧
      ((∀ n, e ≠ Event.resize n) → s'.gridSize = s.gridSize) := by
  cases e with
  | pointerDown x y =>
    obtain ⟨hcell, htools⟩ := hedit
    obtain ⟨cell, hc⟩ : ∃ cell, getCellFromPointer s x y = some cell := by
      cases hg : getCellFromPointer s x y with
      | none => exact absurd hg hcell
      | some cell => exact ⟨cell, rfl⟩
    simp only [handleEvent, handlePointerDown, hc] at h
    cases htool : s.activeTool <;> simp only [htool] at h htools
    · have e := setPixel_frame h
      rw [e]
      exact ⟨rfl, rfl, fun _ => rfl⟩
    · have e := setPixel_frame h
      rw [e]
      exact ⟨rfl, rfl, fun _ => rfl⟩
    · simp only [applyOneShotTool, htool] at h
      have e := floodFill_frame h
      rw [e]
      exact ⟨rfl, rfl, fun _ => rfl⟩
    · simp only [applyOneShotTool, htool] at h
      cases hl : s.lineStart with
      | none => simp [hl] at htools
      | some a =>
        simp only [hl] at h
        split at h
        · cases h
        · rename_i s2 h2
          cases h
          have e := plotLine_frame h2
          rw [e]
          exact ⟨rfl, rfl, fun _ => rfl⟩
    · simp only [applyOneShotTool, htool] at h
      cases hl : s.rectStart with
      | none => simp [hl] at htools
      | some a =>
        simp only [hl] at h
        split at h
        · cases h
        · rename_i s2 h2
          cases h
          have e := drawRect_frame h2
          rw [e]
          exact ⟨rfl, rfl, fun _ => rfl⟩
    · simp only [applyOneShotTool, htool] at h
      cases hl : s.rectStart with
      | none => simp [hl] at htools
      | some a =>
        simp only [hl] at h
        split at h
        · cases h
        · rename_i s2 h2
          cases h
          have e := drawRect_frame h2
          rw [e]
          exact ⟨rfl, rfl, fun _ => rfl⟩
  | clear =>
    simp only [handleEvent, Option.some.injEq] at h
    subst h
    exact ⟨rfl, rfl, fun _ => rfl⟩
  | resize n =>
    simp only [handleEvent, resizeGrid] at h
    split at h
    · cases h
    · cases h
      exact ⟨rfl, rfl, fun hn => absurd rfl (hn n)⟩
  | pointerMove x y => exact absurd hedit id
  | pointerUp => exact absurd hedit id
  | undo => exact absurd hedit id
  | redo => exact absurd hedit id
  | selectTool t => exact absurd hedit id
  | colorInput c => exact absurd hedit id
  | swatchClick i => exact absurd hedit id
  | addPaletteColor => exact absurd hedit id
  | zoom n => exact absurd hedit id

/-- On a well-formed grid every event that starts a new edit returns, and the
grid stays well formed. -/
theorem startsEdit_total {s : State} (hwf : WellFormed s) {e : Event} (hedit : StartsEdit s e) :
    ∃ s', handleEvent s e = some s' ∧ WellFormed s' := by
  cases e with
  | pointerDown x y =>
    obtain ⟨hcell, htools⟩ := hedit
    obtain ⟨cell, hc⟩ : ∃ cell, getCellFromPointer s x y = some cell := by
      cases hg : getCellFromPointer s x y with
      | none => exact absurd hg hcell
      | some cell => exact ⟨cell, rfl⟩
    obtain ⟨rfl, hin⟩ := getCellFromPointer_eq_some hc
    simp only [handleEvent, handlePointerDown, hc]
    cases htool : s.activeTool <;> simp only [htool] at htools ⊢
    · have hwf1 : WellFormed { pushHistorySnapshot s with isDrawing := true } := hwf
      obtain ⟨s', h1, h2, _⟩ := setPixel_total hwf1 x y (some s.activeColor)
      exact ⟨s', h1, h2⟩
    · have hwf1 : WellFormed { pushHistorySnapshot s with isDrawing := true } := hwf
      obtain ⟨s', h1, h2, _⟩ := setPixel_total hwf1 x y TRANSPARENT
      exact ⟨s', h1, h2⟩
    · simp only [applyOneShotTool, htool]
      exact floodFill_total (pushHistorySnapshot_wellFormed hwf) hin _
    · simp only [applyOneShotTool, htool]
      cases hl : s.lineStart with
      | none => simp [hl] at htools
      | some a =>
        obtain ⟨s2, h1, h2⟩ := plotLine_total (pushHistorySnapshot_wellFormed hwf) a.x a.y x y
          (some s.activeColor)
        simp only [h1]
        exact ⟨_, rfl, h2⟩
    · simp only [applyOneShotTool, htool]
      cases hl : s.rectStart with
      | none => simp [hl] at htools
      | some a =>
        obtain ⟨s2, h1, h2⟩ := drawRect_total (pushHistorySnapshot_wellFormed hwf) a ⟨x, y⟩ false
        simp only [h1]
        exact ⟨_, rfl, h2⟩
    · simp only [applyOneShotTool, htool]
      cases hl : s.rectStart with
      | none => simp [hl] at htools
      | some a =>
        obtain ⟨s2, h1, h2⟩ := drawRect_total (pushHistorySnapshot_wellFormed hwf) a ⟨x, y⟩ true
        simp only [h1]
        exact ⟨_, rfl, h2⟩
  | clear =>
    refine ⟨clearCanvas s, rfl, ?_⟩
    exact createPixelGrid_isGrid s.gridSize
  | resize n =>
    obtain ⟨s', h1, h2, _⟩ := resizeGrid_total s hwf n
    exact ⟨s', h1, h2⟩
  | pointerMove x y => exact absurd hedit id
  | pointerUp => exact absurd hedit id
  | undo => exact absurd hedit id
  | redo => exact absurd hedit id
  | selectTool t => exact absurd hedit id
  | colorInput c => exact absurd hedit id
  | swatchClick i => exact absurd hedit id
  | addPaletteColor => exact absurd hedit id
  | zoom n => exact absurd hedit id

/-- The function `handlePointerMove` leaves both history stacks as they are. -/
theorem handlePointerMove_history {s s' : State} {x y : Int}
    (h : handlePointerMove s x y = some s') :
    s'.redoStack = s.redoStack ∧ s'.undoStack = s.undoStack := by
  unfold handlePointerMove at h
  split at h
  · cases h
    exact ⟨rfl, rfl⟩
  · split at h
    · cases h
      exact ⟨rfl, rfl⟩
    · split at h
      · have e := setPixel_frame h
        rw [e]
        exact ⟨rfl, rfl⟩
      · have e := setPixel_frame h
        rw [e]
        exact ⟨rfl, rfl⟩
      · cases h
        exact ⟨rfl, rfl⟩

theorem handlePointerMove_total {s : State} (hwf : WellFormed s) (x y : Int) :
    ∃ s', handlePointerMove s x y = some s' ∧ WellFormed s' := by
  unfold handlePointerMove
  split
  · exact ⟨s, rfl, hwf⟩
  · split
    · exact ⟨s, rfl, hwf⟩
    · rename_i cell _
      split
      · obtain ⟨s', h1, h2, _⟩ := setPixel_total hwf cell.x cell.y (some s.activeColor)
        exact ⟨s', h1, h2⟩
      · obtain ⟨s', h1, h2, _⟩ := setPixel_total hwf cell.x cell.y TRANSPARENT
        exact ⟨s', h1, h2⟩
      · exact ⟨s, rfl, hwf⟩

/-! ## Undo after an edit, and the redo stack -/

/-- After an event that left the undo stack as `pushHistorySnapshot` made it,
`undo()` installs the grid content from before the event; it does not touch
`gridSize`. -/
theorem undo_of_snapshot {s s' : State}
    (h : s'.undoStack = (pushHistorySnapshot s).undoStack) :
    (undo s').pixels = s.pixels ∧ (undo s').gridSize = s'.gridSize := by
  unfold undo
  rw [h, pushHistorySnapshot_getLast]
  exact ⟨rfl, rfl⟩

/-- On a well-formed grid, every event that starts a new edit returns, and a
following `undo()` restores the cell contents; it restores `gridSize` too
unless the event was a resize, after which `gridSize` stays at the new size. -/
theorem edit_then_undo (s : State) (hwf : WellFormed s) (e : Event) (hedit : StartsEdit s e) :
    ∃ s', handleEvent s e = some s' ∧ (undo s').pixels = s.pixels ∧
      ((∀ n, e ≠ Event.resize n) → (undo s').gridSize = s.gridSize) ∧
      (∀ n, e = Event.resize n → (undo s').gridSize = n) := by
  obtain ⟨s', h1, _⟩ := startsEdit_total hwf hedit
  obtain ⟨hu, _, hg⟩ := startsEdit_effect hedit h1
  obtain ⟨hp, hgs⟩ := undo_of_snapshot hu
  refine ⟨s', h1, hp, ?_, ?_⟩
  · intro hn
    rw [hgs]
    exact hg hn
  · intro n hn
    subst hn
    rw [hgs]
    obtain ⟨s2, h2, _, hfr, _⟩ := resizeGrid_total s hwf n
    have : s' = s2 := by
      have h1' : resizeGrid s n = some s' := h1
      rw [h2] at h1'
      exact (Option.some.inj h1').symm
    rw [this, hfr]

/-- C2 (code defect): from the initial session, `resizeGrid(16)` followed by
`undo()` reaches a state whose `gridSize` is 16 while `pixels` is the 32-row
grid from before the resize: `undo` restores `pixels` but not `gridSize`. -/
theorem resize_undo_breaks_wellFormed :
    ∃ s, runEvents initialState [Event.resize 16, Event.undo] = some s ∧ Reachable s ∧
      s.gridSize = 16 ∧ s.pixels.length = 32 ∧ ¬ WellFormed s := by
  obtain ⟨s1, h1, hp, _, hg⟩ :=
    edit_then_undo initialState (by decide) (Event.resize 16) trivial
  have h1' : resizeGrid initialState 16 = some s1 := h1
  have hrun : runEvents initialState [Event.resize 16, Event.undo] = some (undo s1) := by
    simp only [runEvents, handleEvent, h1']
  have hlen : (undo s1).pixels.length = 32 := by
    rw [hp]
    decide
  have hgs : (undo s1).gridSize = 16 := hg 16 rfl
  refine ⟨undo s1, hrun, ⟨_, hrun⟩, hgs, hlen, ?_⟩
  intro hwf
  have := hwf.1
  rw [hlen, hgs] at this
  exact absurd this (by decide)

/-- C3 (code defect): on the initial session (32×32), `resizeGrid(16)` followed
by `undo()` restores the cell contents but leaves `gridSize` at 16 instead of 32. -/
theorem resize_undo_keeps_new_size :
    ∃ s1, handleEvent initialState (Event.resize 16) = some s1 ∧
      (undo s1).pixels = initialState.pixels ∧
      (undo s1).gridSize = 16 ∧ initialState.gridSize = 32 ∧
      (undo s1).gridSize ≠ initialState.gridSize := by
  obtain ⟨s1, h1, hp, _, hg⟩ :=
    edit_then_undo initialState (by decide) (Event.resize 16) trivial
  have hgs : (undo s1).gridSize = 16 := hg 16 rfl
  refine ⟨s1, h1, hp, hgs, rfl, ?_⟩
  rw [hgs]
  decide

theorem LinePath.cons {x0 y0 DX DY sx sy a b a2 b2 : Int} {cs : List Cell}
    (hsx : sx = 1 ∨ sx = -1) (hsy : sy = 1 ∨ sy = -1)
    (h : LinePath x0 y0 DX DY sx sy a2 b2 cs)
    (ha : a ≤ a2) (ha' : a2 ≤ a + 1) (hb : b ≤ b2) (hb' : b2 ≤ b + 1)
    (hstep : a2 = a + 1 ∨ b2 = b + 1)
    (hx : DY ≤ DX → a2 = a + 1) (hy : DX ≤ DY → b2 = b + 1) (haD : a ≤ DX) (hbD : b ≤ DY) :
    LinePath x0 y0 DX DY sx sy a b (⟨x0 + a * sx, y0 + b * sy⟩ :: cs) := by
  refine ⟨rfl, ?_, ?_, ?_, ?_, ?_, ?_⟩
  · rw [List.getLast?_cons, h.last]
    rfl
  · intro c hc
    rcases List.mem_cons.mp hc with hc | hc
    · exact ⟨a, b, le_rfl, haD, le_rfl, hbD, hc⟩
    · obtain ⟨a', b', h1, h2, h3, h4, h5⟩ := h.box c hc
      exact ⟨a', b', by omega, h2, by omega, h4, h5⟩
  · refine List.nodup_cons.mpr ⟨?_, h.nodup⟩
    intro hmem
    obtain ⟨a', b', h1, _, h3, _, h5⟩ := h.box _ hmem
    simp only [Cell.mk.injEq] at h5
    obtain ⟨e1, e2⟩ := h5
    rcases hstep with hs | hs
    · rcases hsx with hsx | hsx <;> rw [hsx] at e1 <;> omega
    · rcases hsy with hsy | hsy <;> rw [hsy] at e2 <;> omega
  · rw [List.chain'_cons']
    refine ⟨?_, h.chain⟩
    intro d hd
    rw [h.head] at hd
    cases hd
    unfold StepByOne
    simp only
    constructor
    · rw [abs_le]
      rcases hsx with hsx | hsx <;> rw [hsx] <;> omega
    · rw [abs_le]
      rcases hsy with hsy | hsy <;> rw [hsy] <;> omega
  · intro hxy
    have := h.lengthX hxy
    have := hx hxy
    simp only [List.length_cons]
    push_cast
    omega
  · intro hxy
    have := h.lengthY hxy
    have := hy hxy
    simp only [List.length_cons]
    push_cast
    omega

/-- C11: on a well-formed grid of size `gridSize`, `resizeGrid(n)` (for every
`n`, in particular every positive one) returns a state whose grid is a
well-formed `n`×`n` grid in which every cell `(x, y)` with
`x, y < min(n, gridSize)` holds the value it held before and every other cell
is `TRANSPARENT`. -/
theorem resizeGrid_spec (s : State) (hwf : WellFormed s) (n : Nat) :
    ∃ s', resizeGrid s n = some s' ∧ WellFormed s' ∧ s'.gridSize = n ∧
      s'.pixels.length = n ∧ (∀ row ∈ s'.pixels, row.length = n) ∧
      ∀ x y : Int, 0 ≤ x → x < n → 0 ≤ y → y < n →
        ((x < min n s.gridSize ∧ y < min n s.gridSize) →
          readPixel s'.pixels x y = readPixel s.pixels x y ∧
          ∃ v, readPixel s.pixels x y = some v) ∧
        (¬ (x < min n s.gridSize ∧ y < min n s.gridSize) →
          readPixel s'.pixels x y = some TRANSPARENT) := by
  obtain ⟨s', h1, hwf', hfr, hrd⟩ := resizeGrid_total s hwf n
  have hgs : s'.gridSize = n := by rw [hfr]
  have hwf2 := hwf'
  unfold WellFormed at hwf2
  rw [hgs] at hwf2
  refine ⟨s', h1, hwf', hgs, hwf2.1, hwf2.2, ?_⟩
  intro x y hx0 hx hy0 hy
  have hin : InBounds s' x y := by
    unfold InBounds
    rw [hgs]
    exact ⟨hx0, hx, hy0, hy⟩
  obtain ⟨hpos, hneg⟩ := hrd x y hin
  refine ⟨fun h => ⟨hpos h, ?_⟩, hneg⟩
  have hx' : x < s.gridSize := by
    have := h.1
    omega
  have hy' : y < s.gridSize := by
    have := h.2
    omega
  exact readPixel_eq_some_of_isGrid hwf hx0 hx' hy0 hy'

/-- Witness for C11: shrinking the initial 32×32 session to 16×16. -/
theorem resizeGrid_spec_witness :
    ∃ s', resizeGrid initialState 16 = some s' ∧ WellFormed s' ∧ s'.gridSize = 16 :=
  (fun ⟨s', h1, h2, h3, _⟩ => ⟨s', h1, h2, h3⟩) (resizeGrid_spec initialState (by decide) 16)

theorem getCellFromPointer_of_inBounds {s : State} {x y : Int} (h : InBounds s x y) :
    getCellFromPointer s x y = some ⟨x, y⟩ := by
  unfold getCellFromPointer
  rw [if_neg]
  unfold InBounds at h
  omega

theorem runEvents_append (es fs : List Event) :
    ∀ s : State, runEvents s (es ++ fs) = (runEvents s es).bind (fun s1 => runEvents s1 fs) := by
  induction es with
  | nil =>
    intro s
    rfl
  | cons e es ih =>
    intro s
    simp only [List.cons_append, runEvents]
    cases handleEvent s e with
    | none => rfl
    | some s1 => exact ih s1

/-- A run of pointer-moves leaves both history stacks as they are. -/
theorem runEvents_moves_history (moves : List (Int × Int)) :
    ∀ s s' : State,
      runEvents s (moves.map (fun m => Event.pointerMove m.1 m.2)) = some s' →
      s'.undoStack = s.undoStack ∧ s'.redoStack = s.redoStack := by
  induction moves with
  | nil =>
    intro s s' h
    cases h
    exact ⟨rfl, rfl⟩
  | cons m moves ih =>
    intro s s' h
    simp only [List.map_cons, runEvents, handleEvent] at h
    cases hm : handlePointerMove s m.1 m.2 with
    | none =>
      rw [hm] at h
      cases h
    | some s1 =>
      rw [hm] at h
      obtain ⟨h1, h2⟩ := ih s1 s' h
      obtain ⟨h3, h4⟩ := handlePointerMove_history hm
      exact ⟨h1.trans h4, h2.trans h3⟩

/-- On a well-formed grid a run of pointer-moves returns. -/
theorem runEvents_moves_total (moves : List (Int × Int)) :
    ∀ s : State, WellFormed s →
      ∃ s', runEvents s (moves.map (fun m => Event.pointerMove m.1 m.2)) = some s' ∧
        WellFormed s' := by
  induction moves with
  | nil =>
    intro s hwf
    exact ⟨s, rfl, hwf⟩
  | cons m moves ih =>
    intro s hwf
    obtain ⟨s1, h1, hwf1⟩ := handlePointerMove_total hwf m.1 m.2
    obtain ⟨s', h2, hwf'⟩ := ih s1 hwf1
    refine ⟨s', ?_, hwf'⟩
    simp only [List.map_cons, runEvents, handleEvent, h1]
    exact h2

/-- C14: with the brush or the eraser active, a complete drag gesture
(pointer-down on a valid cell, pointer-moves over any cells, pointer-up) leaves
the undo stack as one `pushHistorySnapshot()` of the state before the gesture
made it (one more entry, the grid before the pointer-down, when the stack was
below its limit) and ends the drawing; a single `undo()` after the gesture
installs the grid content from before the pointer-down.  On a well-formed grid
the gesture does return. -/
theorem drag_gesture_one_snapshot (s : State) (x y : Int) (moves : List (Int × Int))
    (htool : s.activeTool = Tool.brush ∨ s.activeTool = Tool.eraser)
    (hcell : InBounds s x y) :
    (∀ s', runEvents s (dragGesture x y moves) = some s' →
      s'.undoStack = (pushHistorySnapshot s).undoStack ∧
      (s.undoStack.length < HISTORY_LIMIT → s'.undoStack = s.undoStack ++ [s.pixels]) ∧
      (undo s').pixels = s.pixels ∧ s'.isDrawing = false) ∧
    (WellFormed s → ∃ s', runEvents s (dragGesture x y moves) = some s') := by
  have hedit : StartsEdit s (Event.pointerDown x y) := by
    refine ⟨?_, ?_⟩
    · rw [getCellFromPointer_of_inBounds hcell]
      simp
    · rcases htool with h | h
      · exact Or.inl h
      · exact Or.inr (Or.inl h)
  constructor
  · intro s' hrun
    unfold dragGesture at hrun
    rw [runEvents] at hrun
    cases hd : handleEvent s (Event.pointerDown x y) with
    | none =>
      rw [hd] at hrun
      cases hrun
    | some s1 =>
      rw [hd] at hrun
      simp only at hrun
      rw [runEvents_append] at hrun
      cases hm : runEvents s1 (moves.map (fun m => Event.pointerMove m.1 m.2)) with
      | none =>
        rw [hm] at hrun
        cases hrun
      | some s2 =>
        rw [hm] at hrun
        simp only [Option.some_bind, runEvents, handleEvent, Option.some.injEq] at hrun
        subst hrun
        obtain ⟨hu1, _, _⟩ := startsEdit_effect hedit hd
        obtain ⟨hu2, _⟩ := runEvents_moves_history moves s1 s2 hm
        have hu : (stopDrawing s2).undoStack = (pushHistorySnapshot s).undoStack := by
          show s2.undoStack = _
          rw [hu2, hu1]
        refine ⟨hu, ?_, (undo_of_snapshot hu).1, rfl⟩
        intro hlen
        rw [hu, pushHistorySnapshot_undoStack s (by omega)]
        have : (s.undoStack ++ [s.pixels]).length - HISTORY_LIMIT = 0 := by
          simp only [List.length_append, List.length_singleton]
          omega
        rw [this, List.drop_zero]
  · intro hwf
    obtain ⟨s1, h1, hwf1⟩ := startsEdit_total hwf hedit
    obtain ⟨s2, h2, _⟩ := runEvents_moves_total moves s1 hwf1
    refine ⟨stopDrawing s2, ?_⟩
    unfold dragGesture
    rw [runEvents, h1]
    simp only
    rw [runEvents_append, h2]
    rfl

/-- Witness for C14: a brush drag over three cells of the initial session. -/
theorem drag_gesture_one_snapshot_witness :
    ∃ s', runEvents initialState (dragGesture 0 0 [(1, 0), (2, 1)]) = some s' ∧
      s'.undoStack = [initialState.pixels] ∧ (undo s').pixels = initialState.pixels :=
  (fun ⟨s', h⟩ =>
      (fun ⟨_, h2, h3, _⟩ => ⟨s', h, h2 (by decide), h3⟩)
        ((drag_gesture_one_snapshot initialState 0 0 [(1, 0), (2, 1)] (Or.inl rfl)
          (by decide)).1 s' h))
    ((drag_gesture_one_snapshot initialState 0 0 [(1, 0), (2, 1)] (Or.inl rfl)
      (by decide)).2 (by decide))

/-- The grid that `setPixel` leaves depends on `gridSize` and `pixels` only. -/
theorem setPixel_pixels_congr {s t : State} (hg : s.gridSize = t.gridSize)
    (hp : s.pixels = t.pixels) (x y : Int) (c : Color) :
    (∀ s', setPixel s x y c = some s' →
      ∃ t', setPixel t x y c = some t' ∧ t'.pixels = s'.pixels ∧ t'.gridSize = s'.gridSize) := by
  intro s' h
  unfold setPixel at h ⊢
  rw [← hg, ← hp]
  split at h
  · rename_i hc
    cases h
    rw [if_pos hc]
    exact ⟨t, rfl, hp.symm, hg.symm⟩
  · rename_i hc
    rw [if_neg hc]
    split at h
    · cases h
    · rename_i p hw
      cases h
      exact ⟨_, rfl, rfl, rfl⟩

theorem paintCells_pixels_congr (c : Color) (cs : List Cell) :
    ∀ s t s' : State, s.gridSize = t.gridSize → s.pixels = t.pixels →
      paintCells s cs c = some s' →
      ∃ t', paintCells t cs c = some t' ∧ t'.pixels = s'.pixels := by
  induction cs with
  | nil =>
    intro s t s' _ hp h
    cases h
    exact ⟨t, rfl, hp.symm⟩
  | cons a cs ih =>
    intro s t s' hg hp h
    rw [paintCells] at h ⊢
    split at h
    · cases h
    · rename_i s1 h1
      obtain ⟨t1, ht1, hp1, hg1⟩ := setPixel_pixels_congr hg hp a.x a.y c s1 h1
      rw [ht1]
      exact ih s1 t1 s' hg1.symm hp1.symm h

theorem plotLine_pixels_congr {s t s' : State} (hg : s.gridSize = t.gridSize)
    (hp : s.pixels = t.pixels) {x0 y0 x1 y1 : Int} {c : Color}
    (h : plotLine s x0 y0 x1 y1 c = some s') :
    ∃ t', plotLine t x0 y0 x1 y1 c = some t' ∧ t'.pixels = s'.pixels := by
  rw [plotLine_eq_paintCells] at h ⊢
  cases hcs : plotLineCells x0 y0 x1 y1 with
  | none =>
    rw [hcs] at h
    cases h
  | some cs =>
    rw [hcs] at h
    exact paintCells_pixels_congr c cs s t s' hg hp h

/-- C15: with the line tool active and no anchor set, for two valid cells `a`
and `b`: the first click at `a` only records `a` as the anchor (grid and both
history stacks stay as they are); the second click at `b` then takes one
snapshot of the untouched grid (it is the newest entry of the undo stack),
leaves the grid that `plotLine` from `a` to `b` in the active colour makes of
the untouched grid, and clears the anchor.  On a well-formed grid the second
click does return. -/
theorem line_two_clicks (s : State) (htool : s.activeTool = Tool.line)
    (hanchor : s.lineStart = none) (a b : Cell) (ha : InBounds s a.x a.y)
    (hb : InBounds s b.x b.y) :
    handlePointerDown s a.x a.y = some { s with lineStart := some a } ∧
    (∀ s2, handlePointerDown { s with lineStart := some a } b.x b.y = some s2 →
      ∃ r, plotLine s a.x a.y b.x b.y (some s.activeColor) = some r ∧
        s2.pixels = r.pixels ∧
        s2.undoStack = (pushHistorySnapshot s).undoStack ∧
        s2.undoStack.getLast? = some s.pixels ∧
        (s.undoStack.length < HISTORY_LIMIT → s2.undoStack = s.undoStack ++ [s.pixels]) ∧
        s2.lineStart = none ∧
        s2 = { pushHistorySnapshot s with pixels := r.pixels }) ∧
    (WellFormed s →
      ∃ s2, handlePointerDown { s with lineStart := some a } b.x b.y = some s2) := by
  obtain ⟨t, ht⟩ : ∃ t : State, t = { s with lineStart := some a } := ⟨_, rfl⟩
  have htool' : t.activeTool = Tool.line := by rw [ht]; exact htool
  have hline' : t.lineStart = some a := by rw [ht]
  have hcolor' : t.activeColor = s.activeColor := by rw [ht]
  have hb' : InBounds t b.x b.y := by rw [ht]; exact hb
  have hdown : handlePointerDown t b.x b.y =
      (plotLine (pushHistorySnapshot t) a.x a.y b.x b.y (some t.activeColor)).map
        (fun s2 => { s2 with lineStart := none }) := by
    unfold handlePointerDown
    rw [getCellFromPointer_of_inBounds hb']
    simp only [htool', applyOneShotTool, hline']
    cases plotLine (pushHistorySnapshot t) a.x a.y b.x b.y (some t.activeColor) <;> rfl
  rw [← ht]
  refine ⟨?_, ?_, ?_⟩
  · rw [ht]
    unfold handlePointerDown
    rw [getCellFromPointer_of_inBounds ha]
    simp only [htool, applyOneShotTool, hanchor]
  · intro s2 hs2
    rw [hdown] at hs2
    cases hr1 : plotLine (pushHistorySnapshot t) a.x a.y b.x b.y (some t.activeColor) with
    | none =>
      rw [hr1] at hs2
      cases hs2
    | some r1 =>
      rw [hr1] at hs2
      simp only [Option.map_some', Option.some.injEq] at hs2
      subst hs2
      obtain ⟨r, hr, hpix⟩ := plotLine_pixels_congr (s := pushHistorySnapshot t) (t := s)
        (by rw [ht]; rfl) (by rw [ht]; rfl) hr1
      rw [hcolor'] at hr
      have hfr := plotLine_frame hr1
      have hu : ({ r1 with lineStart := none } : State).undoStack =
          (pushHistorySnapshot s).undoStack := by
        rw [hfr, ht]
        rfl
      refine ⟨r, hr, hpix.symm, hu, ?_, ?_, rfl, ?_⟩
      · rw [hu, pushHistorySnapshot_getLast]
      · intro hlen
        rw [hu, pushHistorySnapshot_undoStack s (by omega)]
        have : (s.undoStack ++ [s.pixels]).length - HISTORY_LIMIT = 0 := by
          simp only [List.length_append, List.length_singleton]
          omega
        rw [this, List.drop_zero]
      · rw [hpix, hfr, ht]
        simp only [pushHistorySnapshot, hanchor]
  · intro hwf
    have hwf1 : WellFormed (pushHistorySnapshot t) := by rw [ht]; exact hwf
    obtain ⟨r1, hr1, _⟩ := plotLine_total hwf1 a.x a.y b.x b.y (some t.activeColor)
    exact ⟨_, by rw [hdown, hr1]; rfl⟩

/-- Witness for C15: the line from `(0, 0)` to `(3, 2)` on the 4×4 example grid
with the line tool selected. -/
theorem line_two_clicks_witness :
    ∃ r s2, plotLine (setActiveTool grid4 Tool.line) 0 0 3 2 (some "#ff5722") = some r ∧
      handlePointerDown { setActiveTool grid4 Tool.line with lineStart := some ⟨0, 0⟩ } 3 2 =
        some s2 ∧
      s2.pixels = r.pixels ∧ s2.lineStart = none :=
  (fun ⟨s2, h⟩ =>
      (fun ⟨r, h1, h2, _, _, _, h6, _⟩ => ⟨r, s2, h1, h, h2, h6⟩)
        ((line_two_clicks (setActiveTool grid4 Tool.line) rfl rfl ⟨0, 0⟩ ⟨3, 2⟩
          (by decide) (by decide)).2.1 s2 h))
    ((line_two_clicks (setActiveTool grid4 Tool.line) rfl rfl ⟨0, 0⟩ ⟨3, 2⟩
      (by decide) (by decide)).2.2 (by decide))

/-! ## The assignments of flood fill -/

/-- Whenever the loop of `floodFill` returns, its list of assignments exists, has
no repetition, holds only valid cells that held the target colour when the loop
started and hold the replacement colour at the end, and holds every cell whose
value the loop changed. -/
theorem floodFillWritesLoop_spec {t r : Color} (hne : t ≠ r) :
    ∀ (fuel : Nat) (s : State) (stack : List Cell) (s' : State),
      floodFillLoop fuel s t r stack = some s' →
      ∃ ws, floodFillWritesLoop fuel s t r stack = some ws ∧ ws.Nodup ∧
        (∀ w ∈ ws, InBounds s w.x w.y ∧ readPixel s.pixels w.x w.y = some t ∧
          readPixel s'.pixels w.x w.y = some r) ∧
        (∀ x y, readPixel s'.pixels x y ≠ readPixel s.pixels x y → (⟨x, y⟩ : Cell) ∈ ws) := by
  intro fuel
  induction fuel with
  | zero =>
    intro s stack s' h
    cases stack with
    | nil =>
      rw [floodFillLoop] at h
      cases h
      refine ⟨[], by rw [floodFillWritesLoop], List.nodup_nil, ?_, ?_⟩
      · intro w hw
        cases hw
      · intro x y hxy
        exact absurd rfl hxy
    | cons c rest =>
      rw [floodFillLoop] at h
      cases h
  | succ fuel ih =>
    intro s stack s' h
    cases stack with
    | nil =>
      rw [floodFillLoop] at h
      cases h
      refine ⟨[], by rw [floodFillWritesLoop], List.nodup_nil, ?_, ?_⟩
      · intro w hw
        cases hw
      · intro x y hxy
        exact absurd rfl hxy
    | cons c rest =>
      rw [floodFillLoop] at h
      rw [floodFillWritesLoop]
      split at h
      · rename_i hout
        rw [if_pos hout]
        exact ih _ _ _ h
      · rename_i hout
        rw [if_neg hout]
        split at h
        · cases h
        · rename_i v hv
          split at h
          · rename_i hvt
            rw [if_pos hvt]
            exact ih _ _ _ h
          · rename_i hvt
            rw [if_neg hvt]
            have hvt' : v = t := by
              by_contra hc
              exact hvt hc
            subst hvt'
            split at h
            · cases h
            · rename_i p hp
              obtain ⟨ws, hws, hnd, hmem, hchg⟩ := ih _ _ _ h
              rw [hws]
              simp only [Option.map_some']
              have hin : InBounds s c.x c.y := by
                unfold InBounds
                omega
              have hnew : readPixel p c.x c.y = some r := readPixel_writePixel_same hp
              have hcnot : c ∉ ws := by
                intro hc
                have := (hmem c hc).2.1
                rw [show readPixel ({ s with pixels := p } : State).pixels c.x c.y =
                  readPixel p c.x c.y from rfl, hnew] at this
                exact hne (Option.some.inj this).symm
              have hckeep : readPixel s'.pixels c.x c.y = some r := by
                by_contra hc
                have hc' : readPixel s'.pixels c.x c.y ≠
                    readPixel ({ s with pixels := p } : State).pixels c.x c.y := by
                  rw [show readPixel ({ s with pixels := p } : State).pixels c.x c.y =
                    readPixel p c.x c.y from rfl, hnew]
                  exact hc
                exact hcnot (hchg c.x c.y hc')
              refine ⟨c :: ws, rfl, List.nodup_cons.mpr ⟨hcnot, hnd⟩, ?_, ?_⟩
              · intro w hw
                rcases List.mem_cons.mp hw with hw | hw
                · subst hw
                  exact ⟨hin, hv, hckeep⟩
                · obtain ⟨h1, h2, h3⟩ := hmem w hw
                  refine ⟨h1, ?_, h3⟩
                  have hwc : w.x ≠ c.x ∨ w.y ≠ c.y := by
                    by_contra hcon
                    push_neg at hcon
                    apply hcnot
                    have : w = c := by
                      cases w
                      cases c
                      simp only [Cell.mk.injEq]
                      exact hcon
                    rw [← this]
                    exact hw
                  rw [← readPixel_writePixel_other hp hwc]
                  exact h2
              · intro x y hxy
                by_cases hc : x = c.x ∧ y = c.y
                · obtain ⟨rfl, rfl⟩ := hc
                  exact List.mem_cons_self _ _
                · apply List.mem_cons_of_mem
                  apply hchg
                  have hoth : readPixel p x y = readPixel s.pixels x y :=
                    readPixel_writePixel_other hp
                      (by by_contra hcon; push_neg at hcon; exact hc hcon)
                  show readPixel s'.pixels x y ≠ readPixel p x y
                  rw [hoth]
                  exact hxy

/-- A list of distinct valid cells has at most `gridSize * gridSize` entries. -/
theorem length_le_of_nodup_inBounds (s : State) (ws : List Cell) (hnd : ws.Nodup)
    (hin : ∀ w ∈ ws, InBounds s w.x w.y) : ws.length ≤ s.gridSize * s.gridSize := by
  rw [← List.toFinset_card_of_nodup hnd]
  calc ws.toFinset.card
      ≤ ((Finset.range s.gridSize ×ˢ Finset.range s.gridSize).image
          (fun p : Nat × Nat => (⟨(p.1 : Int), (p.2 : Int)⟩ : Cell))).card := by
        apply Finset.card_le_card
        intro w hw
        rw [List.mem_toFinset] at hw
        have h := hin w hw
        unfold InBounds at h
        rw [Finset.mem_image]
        refine ⟨(w.x.toNat, w.y.toNat), ?_, ?_⟩
        · simp only [Finset.mem_product, Finset.mem_range]
          omega
        · cases w
          simp only [Cell.mk.injEq]
          simp only at h
          omega
    _ ≤ (Finset.range s.gridSize ×ˢ Finset.range s.gridSize).card := Finset.card_image_le
    _ = s.gridSize * s.gridSize := by simp

/-- When the work list is empty, every connected cell is filled. -/
theorem FloodInv.filled {s0 : State} {t r : Color} {sX sY : Int} {s' : State}
    (inv : FloodInv s0 t r sX sY s' []) :
    ∀ x y, Connected s0 t sX sY x y → readPixel s'.pixels x y = some r := by
  intro x y hconn
  induction hconn with
  | start _ _ =>
    rcases inv.start with h | h
    · exact h
    · cases h
  | step hprev hadj hin' hc' ih =>
    rcases inv.closed _ _ hprev ih _ _ hadj hin' hc' with h | h
    · exact h
    · cases h

/-- A cell that is not connected to the start cell keeps its value. -/
theorem FloodInv.unchanged {s0 : State} {t r : Color} {sX sY : Int} {s' : State}
    {stack : List Cell} (inv : FloodInv s0 t r sX sY s' stack) :
    ∀ x y, ¬ Connected s0 t sX sY x y → readPixel s'.pixels x y = readPixel s0.pixels x y := by
  intro x y hnot
  rcases inv.same_or_filled x y with h | h
  · exact h
  · exact absurd h.2 hnot

/-- C16: on a well-formed grid, for an in-bounds start cell of colour `C` and a
replacement colour `R`, the work-list loop of `floodFill` ends (`floodFill`
returns), and its assignments `state.pixels[y][x] = replacementColor` hit no
cell twice: for `R ≠ C` the assigned cells are exactly the cells connected to
the start cell through colour `C`, each assigned once; for `R = C` nothing is
assigned; the number of assignments is at most `gridSize * gridSize`. -/
theorem floodFill_writes_once (s : State) (hwf : WellFormed s) (startX startY : Int)
    (hin : InBounds s startX startY) (C : Color)
    (hC : readPixel s.pixels startX startY = some C) (R : Color) :
    ∃ s' ws, floodFill s startX startY R = some s' ∧
      floodFillWrites s startX startY R = some ws ∧
      ws.Nodup ∧ ws.length ≤ s.gridSize * s.gridSize ∧
      (∀ w ∈ ws, readPixel s'.pixels w.x w.y = some R) ∧
      (R ≠ C → ∀ x y, (⟨x, y⟩ : Cell) ∈ ws ↔ Connected s C startX startY x y) ∧
      (R = C → ws = []) := by
  by_cases hRC : C = R
  · subst hRC
    refine ⟨s, [], ?_, ?_, List.nodup_nil, Nat.zero_le _, ?_, fun h => absurd rfl h, fun _ => rfl⟩
    · unfold floodFill
      rw [hC]
      simp
    · unfold floodFillWrites
      rw [hC]
      simp
    · intro w hw
      cases hw
  · obtain ⟨s', hrun, inv⟩ := floodFill_run s hwf startX startY hin C hC R hRC
    have hloop : floodFillLoop (4 * s.gridSize * s.gridSize + 1) s C R [⟨startX, startY⟩] =
        some s' := by
      unfold floodFill at hrun
      rw [hC] at hrun
      simp only [if_neg hRC] at hrun
      exact hrun
    obtain ⟨ws, hws, hnd, hmem, hchg⟩ := floodFillWritesLoop_spec hRC _ _ _ _ hloop
    refine ⟨s', ws, hrun, ?_, hnd,
      length_le_of_nodup_inBounds s ws hnd (fun w hw => (hmem w hw).1),
      fun w hw => (hmem w hw).2.2, ?_, fun h => absurd h.symm hRC⟩
    · unfold floodFillWrites
      rw [hC]
      simp only [if_neg hRC]
      exact hws
    · intro _ x y
      constructor
      · intro hw
        obtain ⟨_, h2, h3⟩ := hmem ⟨x, y⟩ hw
        by_contra hnot
        have := inv.unchanged x y hnot
        simp only at h2 h3
        rw [h2, h3] at this
        exact hRC (Option.some.inj this).symm
      · intro hconn
        apply hchg
        rw [inv.filled x y hconn, hconn.color]
        intro h
        exact hRC (Option.some.inj h).symm

/-- Witness for C16: filling the transparent 4×4 example grid from `(1, 1)`
assigns at most 16 cells, the start cell among them. -/
theorem floodFill_writes_once_witness :
    ∃ ws, floodFillWrites grid4 1 1 (some "#ff0000") = some ws ∧ ws.Nodup ∧
      ws.length ≤ 4 * 4 ∧ (⟨1, 1⟩ : Cell) ∈ ws :=
  (fun ⟨_, ws, _, h2, h3, h4, _, h6, _⟩ =>
      ⟨ws, h2, h3, h4, (h6 (by decide) 1 1).mpr (Connected.start (by decide) (by decide))⟩)
    (floodFill_writes_once grid4 (by decide) 1 1 (by decide) none (by decide) (some "#ff0000"))

/-! ## Project files -/

theorem renderCanvasThrows_iff (s : State) :
    renderCanvasThrows s = true ↔ s.pixels.length < s.gridSize := by
  unfold renderCanvasThrows
  simp only [List.any_eq_true, List.mem_range, Option.isNone_iff_eq_none,
    List.getElem?_eq_none_iff]
  constructor
  · rintro ⟨y, hy, _, _, hlen⟩
    omega
  · intro h
    exact ⟨s.pixels.length, h, 0, by omega, le_rfl⟩

/-- A document that fails the validation of `loadProjectJson` is reported with
'Invalid project file.' and leaves the state as it was; and a load reported
with that error has changed nothing. -/
theorem loadProject_invalid (s : State) (data : ProjectDocument) :
    ((data.gridSize = none ∨ data.gridSize = some 0 ∨ data.pixels = none ∨
        data.palette = none) →
      loadProject s data = (s, some LoadError.invalidProjectFile)) ∧
    ((loadProject s data).2 = some LoadError.invalidProjectFile → (loadProject s data).1 = s) := by
  cases hg : data.gridSize with
  | none => simp [loadProject, hg]
  | some g =>
    cases hp : data.pixels with
    | none => simp [loadProject, hg, hp]
    | some p =>
      cases hpal : data.palette with
      | none => simp [loadProject, hg, hp, hpal]
      | some pal =>
        by_cases h0 : g = 0
        · simp [loadProject, hg, hp, hpal, h0]
        · simp only [loadProject, hg, hp, hpal, h0, if_false, reduceCtorEq, Option.some.injEq,
            or_self, or_false, false_or, false_implies, true_and]
          split <;> simp

theorem loadedActiveColor_of_ne_empty {c : String} (hc : c ≠ "") (palette : List String) :
    loadedActiveColor (some c) palette = c := by
  unfold loadedActiveColor
  have : (some c).filter (fun c => c != "") = some c := by
    simp [Option.filter, hc]
  rw [this]

theorem loadedActiveColor_ne_empty (activeColor : Option String) (palette : List String) :
    loadedActiveColor activeColor palette ≠ "" := by
  unfold loadedActiveColor
  split
  · rename_i c hc
    rw [Option.filter_eq_some] at hc
    simpa using hc.2
  · split
    · rename_i c hc
      rw [Option.filter_eq_some] at hc
      simpa using hc.2
    · decide

/-- Loading the document saved from `s`, whatever the state `t` at the time of
the load: the outcome in terms of `s`. -/
theorem loadProject_saveProjectJson (s t : State) :
    loadProject t (saveProjectJson s) =
      if s.gridSize = 0 then (t, some LoadError.invalidProjectFile)
      else
        ({ t with
            gridSize := s.gridSize
            pixels := s.pixels
            palette := s.palette
            activeColor := loadedActiveColor (some s.activeColor) s.palette
            undoStack := []
            redoStack := [] },
          if s.pixels.length < s.gridSize then some LoadError.typeError else none) := by
  unfold loadProject saveProjectJson
  simp only
  split
  · rfl
  · rename_i h0
    have hiff := renderCanvasThrows_iff
      { t with
        gridSize := s.gridSize
        pixels := s.pixels
        palette := s.palette
        activeColor := loadedActiveColor (some s.activeColor) s.palette
        undoStack := []
        redoStack := [] }
    simp only at hiff
    by_cases hlen : s.pixels.length < s.gridSize
    · rw [if_pos (hiff.mpr hlen), if_pos hlen]
    · rw [if_neg (fun h => hlen (hiff.mp h)), if_neg hlen]

/-- C12 (as stated) fails for three kinds of session.  With `gridSize = 0` the
saved document is rejected as an invalid project file.  With an empty
`activeColor` (reached from the initial session by loading a project whose
palette holds the empty string and clicking that swatch) the load picks
another colour.  In the session reached from the initial one by
`resizeGrid(16)`, `resizeGrid(32)`, `undo()` (`gridSize` 32 over a 16-row grid)
the load of its own saved document is reported as failed, because
`renderCanvas()` throws after the state has been assigned. -/
theorem save_load_counterexample :
    (loadProject initialState
        (saveProjectJson { initialState with gridSize := 0, pixels := [] })).2 =
      some LoadError.invalidProjectFile ∧
    (runActions initialState
        [Action.load ⟨some 1, some 4, some "#000000", some [""], some (createPixelGrid 4)⟩,
          Action.event (Event.swatchClick 0)]).map
        (fun s => (s.activeColor, (loadProject s (saveProjectJson s)).1.activeColor)) =
      some ("", "#000000") ∧
    (runEvents initialState [Event.resize 16, Event.resize 32, Event.undo]).map
        (fun s => (s.gridSize, s.pixels.length, (loadProject s (saveProjectJson s)).2)) =
      some (32, 16, some LoadError.typeError) := by
  decide

/-- C12 (amended): for every session `s` whose `gridSize` is not 0, whose
`activeColor` is not the empty string and whose `pixels` has at least
`gridSize` rows (so for every well-formed session of positive size with a
non-empty active colour), loading the document that `saveProjectJson` makes of
it reports no error and leaves `gridSize`, `pixels`, `palette` and
`activeColor` equal to those of `s` and both history stacks empty, whatever
the state `t` at the time of the load. -/
theorem save_load_roundtrip (s t : State) :
    (s.gridSize ≠ 0 → s.activeColor ≠ "" → s.gridSize ≤ s.pixels.length →
      loadProject t (saveProjectJson s) =
        ({ t with
            gridSize := s.gridSize
            pixels := s.pixels
            palette := s.palette
            activeColor := s.activeColor
            undoStack := []
            redoStack := [] }, none)) ∧
    (WellFormed s → 0 < s.gridSize → s.activeColor ≠ "" →
      (loadProject t (saveProjectJson s)).2 = none ∧
      (loadProject t (saveProjectJson s)).1.gridSize = s.gridSize ∧
      (loadProject t (saveProjectJson s)).1.pixels = s.pixels ∧
      (loadProject t (saveProjectJson s)).1.palette = s.palette ∧
      (loadProject t (saveProjectJson s)).1.activeColor = s.activeColor ∧
      (loadProject t (saveProjectJson s)).1.undoStack = [] ∧
      (loadProject t (saveProjectJson s)).1.redoStack = []) := by
  have key : s.gridSize ≠ 0 → s.activeColor ≠ "" → s.gridSize ≤ s.pixels.length →
      loadProject t (saveProjectJson s) =
        ({ t with
            gridSize := s.gridSize
            pixels := s.pixels
            palette := s.palette
            activeColor := s.activeColor
            undoStack := []
            redoStack := [] }, none) := by
    intro h0 hc hlen
    rw [loadProject_saveProjectJson, if_neg h0, if_neg (by omega),
      loadedActiveColor_of_ne_empty hc]
  refine ⟨key, ?_⟩
  intro hwf hpos hc
  have hlen : s.gridSize ≤ s.pixels.length := by
    rw [hwf.1]
  rw [key (by omega) hc hlen]
  exact ⟨rfl, rfl, rfl, rfl, rfl, rfl, rfl⟩

/-- Witness for C12 (amended): saving the 4×4 example session and loading the
document into the initial session. -/
theorem save_load_roundtrip_witness :
    (loadProject initialState (saveProjectJson grid4)).2 = none ∧
    (loadProject initialState (saveProjectJson grid4)).1.pixels = grid4.pixels ∧
    (loadProject initialState (saveProjectJson grid4)).1.gridSize = 4 :=
  (fun ⟨h1, h2, h3, _⟩ => ⟨h1, h3, h2⟩)
    ((save_load_roundtrip grid4 initialState).2 (by decide) (by decide) (by decide))

/-- C13 (code defect): in the session after one `clearCanvas()`, loading the
document `{"gridSize": 2, "pixels": [], "palette": []}` passes the validation,
assigns `gridSize`, `pixels`, `palette`, `activeColor` and empties both history
stacks, and is then reported as failed, because `renderCanvas()` throws on the
missing rows: the load is reported as failed although the state has changed. -/
theorem load_failure_after_assignment :
    loadProject (clearCanvas initialState) ⟨none, some 2, none, some [], some []⟩ =
      ({ clearCanvas initialState with
          gridSize := 2
          pixels := []
          palette := []
          activeColor := "#000000"
          undoStack := []
          redoStack := [] }, some LoadError.typeError) ∧
    (clearCanvas initialState).gridSize = 32 ∧
    (clearCanvas initialState).undoStack.length = 1 ∧
    (clearCanvas initialState).palette.length = 16 ∧
    (clearCanvas initialState).activeColor = "#ff5722" := by
  decide

/-! ## The size of the history -/

end PixelArt
